import Mathlib

/-!
Verification of the MPC packed minor-planet designation codec described by
`spec.md` and exercised by the repository's test fixture `src/test_des.txt`.
The codec itself (pack/unpack) is not among the repository's source files;
following the fixture and the specification, it is modelled here as pure
Lean functions on strings.  ASCII codes are used throughout: `'0'` = 48,
`'9'` = 57, `'A'` = 65, `'Z'` = 90, `'a'` = 97, `'z'` = 122.
-/

namespace MpcDes

/-- Modelled from the spec: value of one base-62 digit.  The digits
`'0'`-`'9'` map to 0-9, `'A'`-`'Z'` to 10-35 and `'a'`-`'z'` to 36-61;
every other character is rejected. -/
def digit_value (c : Char) : Option Nat :=
  if 48 ≤ c.toNat ∧ c.toNat ≤ 57 then some (c.toNat - 48)
  else if 65 ≤ c.toNat ∧ c.toNat ≤ 90 then some (c.toNat - 55)
  else if 97 ≤ c.toNat ∧ c.toNat ≤ 122 then some (c.toNat - 61)
  else none

/-- Modelled from the spec: the base-62 digit character for a value
below 62 (inverse of `digit_value`). -/
def base62_char (n : Nat) : Char :=
  if n < 10 then Char.ofNat (48 + n)
  else if n < 36 then Char.ofNat (55 + n)
  else Char.ofNat (61 + n)

/-- The base-62 alphabet in its documented order. -/
def alphabet62 : List Char :=
  "0123456789ABCDEFGHIJKLMNOPQRSTUVWXYZabcdefghijklmnopqrstuvwxyz".data

theorem digit_value_base62_char : ∀ n < 62, digit_value (base62_char n) = some n := by
  decide

theorem base62_char_digit_value (c : Char) (v : Nat)
    (h : digit_value c = some v) : base62_char v = c := by
  unfold digit_value at h
  split at h
  · rename_i h₁
    simp only [Option.some.injEq] at h
    have hv : v = c.toNat - 48 := h.symm
    have : base62_char v = Char.ofNat c.toNat := by
      unfold base62_char
      rw [if_pos (by omega)]
      congr 1
      omega
    rw [this, Char.ofNat_toNat]
  · split at h
    · rename_i h₁ h₂
      simp only [Option.some.injEq] at h
      have : base62_char v = Char.ofNat c.toNat := by
        unfold base62_char
        rw [if_neg (by omega), if_pos (by omega)]
        congr 1
        omega
      rw [this, Char.ofNat_toNat]
    · split at h
      · rename_i h₁ h₂ h₃
        simp only [Option.some.injEq] at h
        have : base62_char v = Char.ofNat c.toNat := by
          unfold base62_char
          rw [if_neg (by omega), if_neg (by omega)]
          congr 1
          omega
        rw [this, Char.ofNat_toNat]
      · exact absurd h (by simp)

/-! ## Decimal digit helpers -/

/-- The decimal digit character for `n % 10`. -/
def digitChar (n : Nat) : Char := Char.ofNat (48 + n % 10)

/-- Numeric value of a decimal digit character. -/
def dv (c : Char) : Nat := c.toNat - 48

/-- Test for a decimal digit character. -/
def isDig (c : Char) : Bool := 48 ≤ c.toNat && c.toNat ≤ 57

theorem toNat_digitChar (n : Nat) : (digitChar n).toNat = 48 + n % 10 := by
  have hvalid : (48 + n % 10).isValidChar := by
    left
    have : n % 10 < 10 := Nat.mod_lt _ (by omega)
    omega
  simp [digitChar, Char.ofNat, hvalid]
  rfl

theorem dv_digitChar (n : Nat) : dv (digitChar n) = n % 10 := by
  simp [dv, toNat_digitChar]

theorem isDig_digitChar (n : Nat) : isDig (digitChar n) = true := by
  have h := toNat_digitChar n
  have : n % 10 < 10 := Nat.mod_lt _ (by omega)
  simp [isDig, h]
  omega

theorem isDig_iff (c : Char) : isDig c = true ↔ 48 ≤ c.toNat ∧ c.toNat ≤ 57 := by
  simp [isDig]

theorem digitChar_dv (c : Char) (h : isDig c = true) : digitChar (dv c) = c := by
  rw [isDig_iff] at h
  have : dv c % 10 = c.toNat - 48 := by
    simp [dv]
    omega
  have h2 : digitChar (dv c) = Char.ofNat c.toNat := by
    unfold digitChar
    rw [this]
    congr 1
    omega
  rw [h2, Char.ofNat_toNat]

theorem dv_lt_ten (c : Char) (h : isDig c = true) : dv c < 10 := by
  rw [isDig_iff] at h
  simp [dv]
  omega

/-! ## Variable-width decimal rendering and parsing -/

/-- Fuel-driven decimal rendering; the fuel always suffices when it
exceeds the number being rendered. -/
def natToDecAux : Nat → Nat → List Char
  | 0, _ => []
  | f + 1, n =>
    if n < 10 then [digitChar n]
    else natToDecAux f (n / 10) ++ [digitChar (n % 10)]

/-- Decimal rendering of a natural number, most significant digit first,
with no leading zeros. -/
def natToDec (n : Nat) : List Char := natToDecAux (n + 1) n

theorem natToDecAux_congr : ∀ f g n, n < f → n < g →
    natToDecAux f n = natToDecAux g n := by
  intro f
  induction f with
  | zero => intro g n hf; omega
  | succ fp ihf =>
    intro g n hf hg
    cases g with
    | zero => omega
    | succ gp =>
      show natToDecAux (fp + 1) n = natToDecAux (gp + 1) n
      unfold natToDecAux
      by_cases h10 : n < 10
      · rw [if_pos h10, if_pos h10]
      · rw [if_neg h10, if_neg h10]
        have hlt : n / 10 < n := Nat.div_lt_self (by omega) (by omega)
        rw [ihf gp (n / 10) (by omega) (by omega)]

theorem natToDec_eq (n : Nat) : natToDec n =
    if n < 10 then [digitChar n] else natToDec (n / 10) ++ [digitChar (n % 10)] := by
  show natToDecAux (n + 1) n = _
  unfold natToDecAux
  by_cases h10 : n < 10
  · rw [if_pos h10, if_pos h10]
  · rw [if_neg h10, if_neg h10]
    have hlt : n / 10 < n := Nat.div_lt_self (by omega) (by omega)
    rw [natToDecAux_congr n (n / 10 + 1) (n / 10) (by omega) (by omega)]
    rfl

/-- Value of a big-endian list of decimal digit characters. -/
def valOf (l : List Char) : Nat := l.foldl (fun a c => a * 10 + dv c) 0

/-- Split a character list into its maximal leading run of decimal digits
and the remainder. -/
def takeDigits : List Char → List Char × List Char
  | [] => ([], [])
  | c :: t =>
    if isDig c then ((c :: (takeDigits t).1), (takeDigits t).2)
    else ([], c :: t)

/-- Interpret the outcome of `takeDigits`: reject an empty digit run and a
run with a leading zero (other than the single digit `"0"`). -/
def parseNatAux : List Char × List Char → Option (Nat × List Char)
  | ([], _) => none
  | (d :: ds, r) =>
    if d = '0' && !ds.isEmpty then none
    else some (valOf (d :: ds), r)

/-- Parse a decimal number (maximal digit run, no leading zero) from the
front of a character list, returning the value and the remainder. -/
def parseNat (l : List Char) : Option (Nat × List Char) :=
  parseNatAux (takeDigits l)

theorem natToDec_ne_nil (n : Nat) : natToDec n ≠ [] := by
  rw [natToDec_eq]
  split
  · simp
  · simp

theorem natToDec_all_dig (n : Nat) : ∀ c ∈ natToDec n, isDig c = true := by
  induction n using Nat.strong_induction_on with
  | _ n ih =>
    rw [natToDec_eq]
    split
    · intro c hc
      simp at hc
      subst hc
      exact isDig_digitChar n
    · intro c hc
      rename_i h
      simp at hc
      rcases hc with hc | hc
      · exact ih (n / 10) (Nat.div_lt_self (by omega) (by omega)) c hc
      · subst hc
        exact isDig_digitChar (n % 10)

theorem natToDec_head_ne_zero (n : Nat) (hn : n ≠ 0) :
    ∀ c, (natToDec n).head? = some c → c ≠ '0' := by
  induction n using Nat.strong_induction_on with
  | _ n ih =>
    rw [natToDec_eq]
    split
    · rename_i h
      intro c hc
      simp at hc
      subst hc
      intro hcon
      have h10 := toNat_digitChar n
      rw [hcon] at h10
      have h0 : ('0' : Char).toNat = 48 := rfl
      rw [h0] at h10
      have : n % 10 = n := Nat.mod_eq_of_lt h
      omega
    · rename_i h
      intro c hc
      have hne := natToDec_ne_nil (n / 10)
      rw [List.head?_append_of_ne_nil _ hne] at hc
      exact ih (n / 10) (Nat.div_lt_self (by omega) (by omega)) (by omega) c hc

theorem valOf_append_singleton (l : List Char) (c : Char) :
    valOf (l ++ [c]) = valOf l * 10 + dv c := by
  simp [valOf, List.foldl_append]

theorem valOf_natToDec (n : Nat) : valOf (natToDec n) = n := by
  induction n using Nat.strong_induction_on with
  | _ n ih =>
    rw [natToDec_eq]
    split
    · rename_i h
      simp [valOf, dv_digitChar]
      omega
    · rename_i h
      rw [valOf_append_singleton, ih (n / 10) (Nat.div_lt_self (by omega) (by omega)),
        dv_digitChar]
      omega

theorem takeDigits_append (ds r : List Char) (hds : ∀ c ∈ ds, isDig c = true)
    (hr : ∀ c, r.head? = some c → isDig c = false) :
    takeDigits (ds ++ r) = (ds, r) := by
  induction ds with
  | nil =>
    simp only [List.nil_append]
    cases r with
    | nil => rfl
    | cons c t =>
      have hc := hr c rfl
      unfold takeDigits
      rw [hc]
      simp
  | cons c t ihds =>
    have hc := hds c (by simp)
    have hrec := ihds (fun x hx => hds x (by simp [hx]))
    unfold takeDigits
    simp only [List.cons_append]
    rw [hc]
    simp only [if_true]
    rw [hrec]

theorem takeDigits_sound (l ds r : List Char) (h : takeDigits l = (ds, r)) :
    l = ds ++ r ∧ (∀ c ∈ ds, isDig c = true) ∧
      (∀ c, r.head? = some c → isDig c = false) := by
  induction l generalizing ds with
  | nil =>
    unfold takeDigits at h
    cases h
    simp
  | cons c t ihl =>
    unfold takeDigits at h
    by_cases hc : isDig c
    · rw [hc] at h
      simp only [if_true, Prod.mk.injEq] at h
      obtain ⟨h1, h2⟩ := h
      obtain ⟨ha, hb, hcr⟩ := ihl (takeDigits t).1 (by rw [← h2])
      subst h1
      refine ⟨by rw [List.cons_append, ← ha], ?_, hcr⟩
      intro x hx
      simp at hx
      rcases hx with hx | hx
      · subst hx; exact hc
      · exact hb x hx
    · rw [Bool.not_eq_true] at hc
      rw [hc] at h
      simp only [Bool.false_eq_true, if_false, Prod.mk.injEq] at h
      obtain ⟨h1, h2⟩ := h
      subst h1
      subst h2
      refine ⟨by simp, by simp, ?_⟩
      intro x hx
      simp at hx
      subst hx
      simp [hc]

theorem dv_eq_zero_iff (c : Char) (h : isDig c = true) : dv c = 0 ↔ c = '0' := by
  constructor
  · intro h0
    have := digitChar_dv c h
    rw [h0] at this
    rw [← this]
    rfl
  · intro h0
    subst h0
    rfl

theorem foldl_val (t : List Char) :
    ∀ a, t.foldl (fun a c => a * 10 + dv c) a = a * 10 ^ t.length + valOf t := by
  induction t with
  | nil => intro a; simp [valOf]
  | cons x xs ihx =>
    intro a
    simp only [List.foldl_cons]
    rw [ihx (a * 10 + dv x)]
    have h2 : valOf (x :: xs) = dv x * 10 ^ xs.length + valOf xs := by
      rw [valOf, List.foldl_cons]
      have h3 := ihx (0 * 10 + dv x)
      simpa [valOf] using h3
    rw [h2]
    simp only [List.length_cons, pow_succ]
    ring

theorem valOf_cons (c : Char) (t : List Char) :
    valOf (c :: t) = dv c * 10 ^ t.length + valOf t := by
  rw [valOf, List.foldl_cons]
  have := foldl_val t (0 * 10 + dv c)
  simpa using this

theorem valOf_pos (c : Char) (t : List Char) (hdig : isDig c = true)
    (hc : c ≠ '0') : 0 < valOf (c :: t) := by
  rw [valOf_cons]
  have : dv c ≠ 0 := fun h0 => hc ((dv_eq_zero_iff c hdig).mp h0)
  have hp : 0 < 10 ^ t.length := Nat.pos_pow_of_pos _ (by omega)
  have : 1 ≤ dv c := by omega
  calc 0 < 1 * 10 ^ t.length := by omega
    _ ≤ dv c * 10 ^ t.length := Nat.mul_le_mul_right _ this
    _ ≤ dv c * 10 ^ t.length + valOf t := Nat.le_add_right _ _

theorem natToDec_step (v u : Nat) (hu : u < 10) (hv : v ≠ 0) :
    natToDec (v * 10 + u) = natToDec v ++ [digitChar u] := by
  have h1 : (v * 10 + u) / 10 = v := by omega
  have h2 : (v * 10 + u) % 10 = u := by omega
  rw [natToDec_eq, if_neg (by omega), h1, h2]

theorem natToDec_valOf (ds : List Char) (hdig : ∀ c ∈ ds, isDig c = true)
    (hne : ds ≠ []) (hlead : ∀ c, ds.head? = some c → c = '0' → ds = ['0']) :
    natToDec (valOf ds) = ds := by
  induction ds using List.reverseRecOn with
  | nil => exact absurd rfl hne
  | append_singleton xs x ihx =>
    rw [valOf_append_singleton]
    have hxdig : isDig x = true := hdig x (by simp)
    cases xs with
    | nil =>
      have hv : valOf ([] : List Char) * 10 + dv x = dv x := by simp [valOf]
      rw [hv, natToDec_eq, if_pos (dv_lt_ten x hxdig), digitChar_dv x hxdig]
      simp
    | cons y ys =>
      have hydig : isDig y = true := hdig y (by simp)
      have hyne : y ≠ '0' := by
        intro hy
        have := hlead y (by simp) hy
        simp at this
      have hpos : 0 < valOf (y :: ys) := valOf_pos y ys hydig hyne
      rw [natToDec_step _ (dv x) (dv_lt_ten x hxdig) (by omega),
        digitChar_dv x hxdig]
      have hx : natToDec (valOf (y :: ys)) = y :: ys := by
        apply ihx
        · intro c hc
          apply hdig
          simp at hc ⊢
          tauto
        · simp
        · intro c hc hc0
          simp at hc
          subst hc
          exact absurd hc0 hyne
      rw [hx]

theorem parseNat_of_natToDec (n : Nat) (r : List Char)
    (hr : ∀ c, r.head? = some c → isDig c = false) :
    parseNat (natToDec n ++ r) = some (n, r) := by
  have htd := takeDigits_append (natToDec n) r (natToDec_all_dig n) hr
  unfold parseNat
  rw [htd]
  have hne := natToDec_ne_nil n
  cases hds : natToDec n with
  | nil => exact absurd hds hne
  | cons d ds =>
    have hval : valOf (d :: ds) = n := by rw [← hds]; exact valOf_natToDec n
    simp only [parseNatAux]
    by_cases hn : n = 0
    · subst hn
      have h0 : natToDec 0 = ['0'] := by decide
      rw [h0] at hds
      injection hds with hd hds2
      subst hd
      subst hds2
      rw [hval]
      simp
    · have hd0 : d ≠ '0' := by
        apply natToDec_head_ne_zero n hn
        rw [hds]
        rfl
      rw [if_neg (by simp [hd0])]
      rw [hval]

theorem parseNat_sound (l : List Char) (n : Nat) (r : List Char)
    (h : parseNat l = some (n, r)) :
    natToDec n ++ r = l ∧ (∀ c, r.head? = some c → isDig c = false) := by
  unfold parseNat at h
  rcases htd : takeDigits l with ⟨ds, r2⟩
  rw [htd] at h
  obtain ⟨hl, hdig, hr⟩ := takeDigits_sound l ds r2 htd
  cases ds with
  | nil => simp [parseNatAux] at h
  | cons d t =>
    simp only [parseNatAux] at h
    by_cases hg : (d = '0' && !t.isEmpty) = true
    · rw [if_pos hg] at h
      simp at h
    · rw [if_neg hg] at h
      simp at h
      obtain ⟨hn, hr2⟩ := h
      subst hr2
      refine ⟨?_, hr⟩
      rw [← hn, hl]
      congr 1
      apply natToDec_valOf
      · exact hdig
      · simp
      · intro c hc hc0
        simp at hc
        subst hc
        subst hc0
        simp at hg
        simp [hg]

/-! ## Character classes and small fixed-width fields -/

theorem toNat_ofNat_valid (m : Nat) (h : m.isValidChar) : (Char.ofNat m).toNat = m := by
  simp [Char.ofNat, h]
  rfl

/-- Uppercase ASCII letter test. -/
def isUC (c : Char) : Bool := 65 ≤ c.toNat && c.toNat ≤ 90

/-- Lowercase ASCII letter test. -/
def isLC (c : Char) : Bool := 97 ≤ c.toNat && c.toNat ≤ 122

/-- Lowercase image of an uppercase ASCII letter. -/
def lcChar (c : Char) : Char := Char.ofNat (c.toNat + 32)

/-- Uppercase image of a lowercase ASCII letter. -/
def ucChar (c : Char) : Char := Char.ofNat (c.toNat - 32)

theorem ucChar_lcChar (c : Char) (h : isUC c = true) : ucChar (lcChar c) = c := by
  simp [isUC] at h
  have hval : (c.toNat + 32).isValidChar := by
    left
    omega
  have h1 : (lcChar c).toNat = c.toNat + 32 := toNat_ofNat_valid _ hval
  unfold ucChar
  rw [h1]
  have h2 : c.toNat + 32 - 32 = c.toNat := by omega
  rw [h2, Char.ofNat_toNat]

theorem isLC_lcChar (c : Char) (h : isUC c = true) : isLC (lcChar c) = true := by
  simp [isUC] at h
  have hval : (c.toNat + 32).isValidChar := by
    left
    omega
  have h1 : (lcChar c).toNat = c.toNat + 32 := toNat_ofNat_valid _ hval
  simp [isLC, h1]
  omega

/-- Two-digit zero-padded decimal field (last two decimal digits). -/
def pad2 (n : Nat) : List Char := [digitChar (n / 10), digitChar n]

/-- Three-digit zero-padded decimal field. -/
def pad3 (n : Nat) : List Char := [digitChar (n / 100), digitChar (n / 10), digitChar n]

/-- Four-digit zero-padded decimal field. -/
def pad4 (n : Nat) : List Char :=
  [digitChar (n / 1000), digitChar (n / 100), digitChar (n / 10), digitChar n]

/-- Modelled from the spec: the two-character cycle-count field, a base-62
tens character followed by a decimal units digit (values 0 through 619). -/
def cc2 (c : Nat) : List Char := [base62_char (c / 10), digitChar c]

/-- Decode the two-character cycle-count field. -/
def cc2val (a b : Char) : Option Nat :=
  match digit_value a with
  | none => none
  | some v => if isDig b then some (v * 10 + dv b) else none

theorem cc2val_cc2 (c : Nat) (h : c ≤ 619) :
    cc2val (base62_char (c / 10)) (digitChar c) = some c := by
  unfold cc2val
  rw [digit_value_base62_char (c / 10) (by omega)]
  rw [isDig_digitChar, dv_digitChar]
  simp
  omega

/-- Modelled from the spec: four-digit base-62 field, most significant
digit first. -/
def b62of4 (v : Nat) : List Char :=
  [base62_char (v / 238328 % 62), base62_char (v / 3844 % 62),
   base62_char (v / 62 % 62), base62_char (v % 62)]

/-- Decode a four-digit base-62 field. -/
def b62val4 (a b c d : Char) : Option Nat :=
  match digit_value a, digit_value b, digit_value c, digit_value d with
  | some va, some vb, some vc, some vd => some (((va * 62 + vb) * 62 + vc) * 62 + vd)
  | _, _, _, _ => none

theorem b62val4_b62of4 (v : Nat) (h : v < 14776336) :
    b62val4 (base62_char (v / 238328 % 62)) (base62_char (v / 3844 % 62))
      (base62_char (v / 62 % 62)) (base62_char (v % 62)) = some v := by
  unfold b62val4
  rw [digit_value_base62_char _ (Nat.mod_lt _ (by omega)),
    digit_value_base62_char _ (Nat.mod_lt _ (by omega)),
    digit_value_base62_char _ (Nat.mod_lt _ (by omega)),
    digit_value_base62_char _ (Nat.mod_lt _ (by omega))]
  simp
  omega

/-- Packed three-character year field: base-62 century character followed
by the last two decimal digits of the year. -/
def yearP (y : Nat) : List Char := base62_char (y / 100) :: pad2 y

/-- Century value of the packed century characters used by the codec
(`I` = 18xx, `J` = 19xx, `K` = 20xx). -/
def centuryVal (c : Char) : Option Nat :=
  if c = 'I' then some 18 else if c = 'J' then some 19
  else if c = 'K' then some 20 else none

theorem centuryVal_base62_char (k : Nat) (h18 : 18 ≤ k) (h20 : k ≤ 20) :
    centuryVal (base62_char k) = some k := by
  interval_cases k <;> decide

/-- Half-month letter test: uppercase `A`-`Y`, excluding `I`. -/
def hmOK (c : Char) : Bool := 65 ≤ c.toNat && c.toNat ≤ 89 && !(c = 'I')

/-- Comet-type letter test (`P`, `C`, `D`, `X`, `A`). -/
def tyOK (c : Char) : Bool := c = 'P' || c = 'C' || c = 'D' || c = 'X' || c = 'A'

/-- Planet letter test for natural-satellite designations. -/
def splOK (c : Char) : Bool := c = 'M' || c = 'J' || c = 'S' || c = 'U' || c = 'N'

/-- Order letter (within a half-month) for an index 0-24: the letters
`A`-`Z` with `I` skipped. -/
def order_char (i : Nat) : Char :=
  if i < 8 then Char.ofNat (65 + i) else Char.ofNat (66 + i)

/-- Index of an order letter (inverse of `order_char`). -/
def order_index (c : Char) : Option Nat :=
  if 65 ≤ c.toNat && c.toNat ≤ 72 then some (c.toNat - 65)
  else if 74 ≤ c.toNat && c.toNat ≤ 90 then some (c.toNat - 66)
  else none

theorem order_index_order_char : ∀ i < 25, order_index (order_char i) = some i := by
  decide

/-! ## Roman numerals (used by the legacy category 5) -/

/-- Hundreds digits of canonical Roman numerals. -/
def romH : List (List Char) :=
  [[], ['C'], ['C', 'C'], ['C', 'C', 'C'], ['C', 'D'], ['D'], ['D', 'C'],
   ['D', 'C', 'C'], ['D', 'C', 'C', 'C'], ['C', 'M']]

/-- Tens digits of canonical Roman numerals. -/
def romT : List (List Char) :=
  [[], ['X'], ['X', 'X'], ['X', 'X', 'X'], ['X', 'L'], ['L'], ['L', 'X'],
   ['L', 'X', 'X'], ['L', 'X', 'X', 'X'], ['X', 'C']]

/-- Units digits of canonical Roman numerals. -/
def romU : List (List Char) :=
  [[], ['I'], ['I', 'I'], ['I', 'I', 'I'], ['I', 'V'], ['V'], ['V', 'I'],
   ['V', 'I', 'I'], ['V', 'I', 'I', 'I'], ['I', 'X']]

/-- Canonical Roman numeral of a number below 1000. -/
def toRoman (n : Nat) : List Char :=
  romH.getD (n / 100 % 10) [] ++ romT.getD (n / 10 % 10) [] ++ romU.getD (n % 10) []

/-- Longest-prefix match against a digit table; returns the digit value
and the rest of the input. -/
def matchTbl : List (List Char × Nat) → List Char → Nat × List Char
  | [], l => (0, l)
  | (p, v) :: rest, l =>
    if p.isPrefixOf l then (v, l.drop p.length) else matchTbl rest l

/-- Hundreds table for parsing, longest candidates first. -/
def hundTbl : List (List Char × Nat) :=
  [(['C', 'M'], 9), (['C', 'D'], 4), (['D', 'C', 'C', 'C'], 8), (['D', 'C', 'C'], 7),
   (['D', 'C'], 6), (['D'], 5), (['C', 'C', 'C'], 3), (['C', 'C'], 2), (['C'], 1)]

/-- Tens table for parsing, longest candidates first. -/
def tensTbl : List (List Char × Nat) :=
  [(['X', 'C'], 9), (['X', 'L'], 4), (['L', 'X', 'X', 'X'], 8), (['L', 'X', 'X'], 7),
   (['L', 'X'], 6), (['L'], 5), (['X', 'X', 'X'], 3), (['X', 'X'], 2), (['X'], 1)]

/-- Units table for parsing, longest candidates first. -/
def unitTbl : List (List Char × Nat) :=
  [(['I', 'X'], 9), (['I', 'V'], 4), (['V', 'I', 'I', 'I'], 8), (['V', 'I', 'I'], 7),
   (['V', 'I'], 6), (['V'], 5), (['I', 'I', 'I'], 3), (['I', 'I'], 2), (['I'], 1)]

/-- Parse a canonical Roman numeral (1-999); the whole input must be
consumed. -/
def parseRoman (l : List Char) : Option Nat :=
  match matchTbl hundTbl l with
  | (h, l1) =>
    match matchTbl tensTbl l1 with
    | (t, l2) =>
      match matchTbl unitTbl l2 with
      | (u, l3) =>
        if l3.isEmpty && !(h = 0 && t = 0 && u = 0) then some (h * 100 + t * 10 + u)
        else none

set_option maxRecDepth 10000 in
set_option maxHeartbeats 2000000 in
theorem parseRoman_toRoman : ∀ n, 1 ≤ n → n ≤ 999 → parseRoman (toRoman n) = some n := by
  decide

/-! ## The designation data model -/

/-- Identifier of one of the four historical surveys. -/
inductive Survey where
  | PL
  | T1
  | T2
  | T3
deriving DecidableEq

/-- Fragment suffix of a numbered comet: one or two letters. -/
inductive Frag where
  | one (a : Char)
  | two (a b : Char)
deriving DecidableEq

/-- Modelled from the spec: the tagged union of designation categories.
Numeric fields are stored in decoded form; letters are stored as the
uppercase characters of the human-readable text. -/
inductive Des where
  | numbered (n : Nat)
  | prov (y : Nat) (hm : Char) (ord : Nat) (cyc : Nat)
  | survey (sv : Survey) (n : Nat)
  | cometP (ty : Char) (y : Nat) (hm : Char) (num : Nat) (frag : Option Char)
  | cometA (ty : Char) (y : Nat) (hm : Char) (ord : Nat) (cyc : Nat)
  | cometN (ty : Char) (n : Nat) (frag : Option Frag)
  | sat (pl : Char) (y : Nat) (n : Nat)
  | roman (pl : Nat) (n : Nat)
  | other6 (s : List Char)
  | passthru (s : List Char)
deriving DecidableEq

/-- Fixture category code of a designation. -/
def desCat : Des → Int
  | .numbered _ => 1
  | .prov _ _ _ _ => 0
  | .survey _ _ => 0
  | .cometP _ _ _ _ _ => 2
  | .cometA _ _ _ _ _ => 2
  | .cometN _ _ _ => 3
  | .sat _ _ _ => 4
  | .roman _ _ => 5
  | .other6 _ => 6
  | .passthru _ => -1

/-- Packed two-character survey code. -/
def surveyChars : Survey → List Char
  | .PL => ['P', 'L']
  | .T1 => ['T', '1']
  | .T2 => ['T', '2']
  | .T3 => ['T', '3']

/-- Human-readable survey suffix. -/
def surveyName : Survey → List Char
  | .PL => ['P', '-', 'L']
  | .T1 => ['T', '-', '1']
  | .T2 => ['T', '-', '2']
  | .T3 => ['T', '-', '3']

/-- Planet names usable in the legacy Roman-numeral category, indexed
0-3. -/
def planetNameL : Nat → List Char
  | 0 => "Jupiter".data
  | 1 => "Saturn".data
  | 2 => "Uranus".data
  | 3 => "Neptune".data
  | _ => []

/-- Packed planet letter for the legacy Roman-numeral category. -/
def planetChar : Nat → Char
  | 0 => 'J'
  | 1 => 'S'
  | 2 => 'U'
  | 3 => 'N'
  | _ => '?'

/-- Repeated spaces. -/
def spaces (k : Nat) : List Char := List.replicate k ' '

/-! ## Packing (structured designation to packed characters) -/

/-- Modelled from the spec: the packed form of a designation, as the
character list of the packed string with its field padding removed.
Numbered objects: five decimal digits up to 99999, a base-62 leading
digit for 100000-619999, and the tilde-prefixed base-62 scheme from
620000 on.  Provisional designations: packed year, half-month letter,
two-character cycle field and order letter for cycles up to 619, and the
underscore-sentinel base-62 scheme beyond.  Comets carry their type
letter in front; numbered-comet fragment letters sit at the end of the
twelve-column field, in lowercase.  Satellites are `S` + year + planet
letter + cycle-style number + `0`.  The legacy Roman-numeral category is
planet letter + three digits + `S`.  Categories 6 and -1 pass through. -/
def packChars : Des → List Char
  | .numbered n =>
    if n ≤ 99999 then
      [digitChar (n / 10000), digitChar (n / 1000), digitChar (n / 100),
       digitChar (n / 10), digitChar n]
    else if n ≤ 619999 then
      [base62_char (n / 10000), digitChar (n / 1000), digitChar (n / 100),
       digitChar (n / 10), digitChar n]
    else '~' :: b62of4 (n - 620000)
  | .prov y hm ord cyc =>
    if cyc ≤ 619 then yearP y ++ hm :: (cc2 cyc ++ [order_char ord])
    else '_' :: base62_char (y - 2000) :: hm :: b62of4 ((cyc - 620) * 25 + ord)
  | .survey sv n => surveyChars sv ++ 'S' :: pad4 n
  | .cometP ty y hm num frag =>
    ty :: (yearP y ++ hm :: (cc2 num ++
      [match frag with | none => '0' | some f => lcChar f]))
  | .cometA ty y hm ord cyc =>
    if cyc ≤ 619 then ty :: (yearP y ++ hm :: (cc2 cyc ++ [order_char ord]))
    else ty :: '_' :: base62_char (y - 2000) :: hm :: b62of4 ((cyc - 620) * 25 + ord)
  | .cometN ty n frag =>
    pad4 n ++ [ty] ++
      (match frag with
       | none => []
       | some (.one a) => spaces 6 ++ [lcChar a]
       | some (.two a b) => spaces 5 ++ [lcChar a, lcChar b])
  | .sat pl y n => 'S' :: (yearP y ++ pl :: (cc2 n ++ ['0']))
  | .roman pl n => planetChar pl :: (pad3 n ++ ['S'])
  | .other6 s => s
  | .passthru s => s

/-! ## Rendering (structured designation to human-readable text) -/

/-- Modelled from the spec: the canonical human-readable text of a
designation (the fixture's `Fullname` column).  Category 5 always
renders the Roman-numeral form. -/
def render : Des → List Char
  | .numbered n => '(' :: (natToDec n ++ [')'])
  | .prov y hm ord cyc =>
    pad4 y ++ ' ' :: hm :: order_char ord :: (if cyc = 0 then [] else natToDec cyc)
  | .survey sv n => natToDec n ++ ' ' :: surveyName sv
  | .cometP ty y hm num frag =>
    ty :: '/' :: (pad4 y ++ ' ' :: hm :: (natToDec num ++
      (match frag with | none => [] | some f => ['-', f])))
  | .cometA ty y hm ord cyc =>
    ty :: '/' :: (pad4 y ++ ' ' :: hm :: order_char ord ::
      (if cyc = 0 then [] else natToDec cyc))
  | .cometN ty n frag =>
    ty :: '/' :: (natToDec n ++
      (match frag with
       | none => []
       | some (.one a) => ['-', a]
       | some (.two a b) => ['-', a, b]))
  | .sat pl y n => 'S' :: '/' :: (pad4 y ++ ' ' :: pl :: ' ' :: natToDec n)
  | .roman pl n => planetNameL pl ++ ' ' :: toRoman n
  | .other6 s => s
  | .passthru s => s

/-! ## Unpacking (packed characters to structured designation) -/

/-- Modelled from the spec: category-6 shape, `dddd-dddL...` with at
least one trailing uppercase letter. -/
def valid6B : List Char → Bool
  | a :: b :: c :: d :: e :: f :: g :: h :: tail =>
    isDig a && isDig b && isDig c && isDig d && e = '-' && isDig f && isDig g &&
      isDig h && !tail.isEmpty && tail.all isUC
  | _ => false

/-- Survey of a packed two-character survey code. -/
def surveyOfChars (a b : Char) : Option Survey :=
  if a = 'P' && b = 'L' then some .PL
  else if a = 'T' && b = '1' then some .T1
  else if a = 'T' && b = '2' then some .T2
  else if a = 'T' && b = '3' then some .T3
  else none

/-- Planet index of a packed legacy-category planet letter. -/
def planetIdx (c : Char) : Option Nat :=
  if c = 'J' then some 0 else if c = 'S' then some 1
  else if c = 'U' then some 2 else if c = 'N' then some 3 else none

/-- Classify and decode a five-character packed field. -/
def unpack5 (a b c d e : Char) : Option Des :=
  if isDig a && isDig b && isDig c && isDig d && isDig e then
    some (.numbered (dv a * 10000 + dv b * 1000 + dv c * 100 + dv d * 10 + dv e))
  else if isDig a && isDig b && isDig c && isDig d && tyOK e then
    some (.cometN e (dv a * 1000 + dv b * 100 + dv c * 10 + dv d) none)
  else if a = '~' then
    match b62val4 b c d e with
    | some v => some (.numbered (620000 + v))
    | none => none
  else
    match digit_value a with
    | some va =>
      if 10 ≤ va && isDig b && isDig c && isDig d && isDig e then
        some (.numbered (va * 10000 + dv b * 1000 + dv c * 100 + dv d * 10 + dv e))
      else
        match planetIdx a with
        | some pl =>
          if isDig b && isDig c && isDig d && e = 'S' &&
              1 ≤ dv b * 100 + dv c * 10 + dv d then
            some (.roman pl (dv b * 100 + dv c * 10 + dv d))
          else none
        | none => none
    | none => none

/-- Classify and decode a seven-character packed field. -/
def unpack7 (a b c d e f g : Char) : Option Des :=
  match centuryVal a with
  | some cen =>
    if isDig b && isDig c && hmOK d then
      match cc2val e f, order_index g with
      | some cyc, some og =>
        some (.prov (cen * 100 + dv b * 10 + dv c) d og cyc)
      | _, _ => none
    else none
  | none =>
    if a = '_' then
      match digit_value b, b62val4 d e f g with
      | some yv, some v =>
        if hmOK c then some (.prov (2000 + yv) c (v % 25) (620 + v / 25)) else none
      | _, _ => none
    else
      match surveyOfChars a b with
      | some sv =>
        if c = 'S' && isDig d && isDig e && isDig f && isDig g then
          some (.survey sv (dv d * 1000 + dv e * 100 + dv f * 10 + dv g))
        else none
      | none => none

/-- Classify and decode an eight-character packed field. -/
def unpack8 (a b c d e f g h : Char) : Option Des :=
  if a = 'S' then
    match centuryVal b, cc2val f g with
    | some cen, some num =>
      if isDig c && isDig d && splOK e && h = '0' then
        some (.sat e (cen * 100 + dv c * 10 + dv d) num)
      else none
    | _, _ => none
  else if tyOK a then
    if b = '_' then
      match digit_value c, b62val4 e f g h with
      | some yv, some v =>
        if hmOK d then some (.cometA a (2000 + yv) d (v % 25) (620 + v / 25))
        else none
      | _, _ => none
    else
      match centuryVal b, cc2val f g with
      | some cen, some num =>
        if isDig c && isDig d && hmOK e then
          if h = '0' then some (.cometP a (cen * 100 + dv c * 10 + dv d) e num none)
          else if isLC h then
            some (.cometP a (cen * 100 + dv c * 10 + dv d) e num (some (ucChar h)))
          else
            match order_index h with
            | some og => some (.cometA a (cen * 100 + dv c * 10 + dv d) e og num)
            | none => none
        else none
      | _, _ => none
  else none

/-- Classify and decode a twelve-character packed field (numbered comet
with fragment suffix, or a long category-6 identifier). -/
def unpack12 (a b c d e f g h i j k m : Char) : Option Des :=
  if isDig a && isDig b && isDig c && isDig d && tyOK e then
    if f = ' ' && g = ' ' && h = ' ' && i = ' ' && j = ' ' && k = ' ' && isLC m then
      some (.cometN e (dv a * 1000 + dv b * 100 + dv c * 10 + dv d)
        (some (.one (ucChar m))))
    else if f = ' ' && g = ' ' && h = ' ' && i = ' ' && j = ' ' && isLC k && isLC m then
      some (.cometN e (dv a * 1000 + dv b * 100 + dv c * 10 + dv d)
        (some (.two (ucChar k) (ucChar m))))
    else none
  else if valid6B [a, b, c, d, e, f, g, h, i, j, k, m] then
    some (.other6 [a, b, c, d, e, f, g, h, i, j, k, m])
  else none

/-- Modelled from the spec: classification of a packed string by its
structure (fixed-position discriminator characters), returning the
decoded designation; strings matching no known layout yield `none` and
are then treated as category -1 pass-through. -/
def unpackChars (l : List Char) : Option Des :=
  match l with
  | [a, b, c, d, e] => unpack5 a b c d e
  | [a, b, c, d, e, f, g] => unpack7 a b c d e f g
  | [a, b, c, d, e, f, g, h] => unpack8 a b c d e f g h
  | [a, b, c, d, e, f, g, h, i, j, k, m] => unpack12 a b c d e f g h i j k m
  | _ => if valid6B l then some (.other6 l) else none

/-! ## Parsing the human-readable grammars -/

/-- Modelled from the spec: pack-side grammar of a provisional asteroid
designation such as `1995 XA` or `2007 TA418`. -/
def parseProv (l : List Char) : Option Des :=
  match l with
  | y1 :: y2 :: y3 :: y4 :: ' ' :: hm :: o :: rest2 =>
    if isDig y1 && isDig y2 && isDig y3 && isDig y4 && hmOK hm then
      match order_index o with
      | some og =>
        if rest2 = [] then
          some (.prov (dv y1 * 1000 + dv y2 * 100 + dv y3 * 10 + dv y4) hm og 0)
        else
          match parseNat rest2 with
          | some (cyc, []) =>
            if 1 ≤ cyc then
              some (.prov (dv y1 * 1000 + dv y2 * 100 + dv y3 * 10 + dv y4) hm og cyc)
            else none
          | _ => none
      | none => none
    else none
  | _ => none

/-- Survey of the two distinguishing characters of a survey suffix. -/
def surveyOfName (a b : Char) : Option Survey :=
  if a = 'P' && b = 'L' then some .PL
  else if a = 'T' && b = '1' then some .T1
  else if a = 'T' && b = '2' then some .T2
  else if a = 'T' && b = '3' then some .T3
  else none

/-- Modelled from the spec: pack-side grammar of a survey designation
such as `2040 P-L` or `3141 T-3`. -/
def parseSurvey (l : List Char) : Option Des :=
  match parseNat l with
  | some (n, ' ' :: c1 :: '-' :: c2 :: []) =>
    match surveyOfName c1 c2 with
    | some sv => some (.survey sv n)
    | none => none
  | _ => none

/-- Modelled from the spec: a category-0 designation is a provisional
asteroid form or a survey form. -/
def parse0 (l : List Char) : Option Des :=
  match parseProv l with
  | some d => some d
  | none => parseSurvey l

/-- Modelled from the spec: pack-side grammar of a numbered object
designation such as `(433)`. -/
def parse1 (l : List Char) : Option Des :=
  match l with
  | '(' :: rest =>
    match parseNat rest with
    | some (n, [')']) => if 1 ≤ n then some (.numbered n) else none
    | _ => none
  | _ => none

/-- Modelled from the spec: pack-side grammar of a provisional-style
comet designation such as `X/1965 K81`,
`D/1965 A619-C` or `C/2003 MX129941`. -/
def parse2 (l : List Char) : Option Des :=
  match l with
  | ty :: '/' :: y1 :: y2 :: y3 :: y4 :: ' ' :: hm :: rest =>
    if tyOK ty && isDig y1 && isDig y2 && isDig y3 && isDig y4 && hmOK hm then
      match rest with
      | [] => none
      | c :: rest2 =>
        if isDig c then
          match parseNat (c :: rest2) with
          | some (num, []) =>
            some (.cometP ty (dv y1 * 1000 + dv y2 * 100 + dv y3 * 10 + dv y4) hm num none)
          | some (num, ['-', f]) =>
            if isUC f then
              some (.cometP ty (dv y1 * 1000 + dv y2 * 100 + dv y3 * 10 + dv y4) hm num
                (some f))
            else none
          | _ => none
        else
          match order_index c with
          | some og =>
            if rest2 = [] then
              some (.cometA ty (dv y1 * 1000 + dv y2 * 100 + dv y3 * 10 + dv y4) hm og 0)
            else
              match parseNat rest2 with
              | some (cyc, []) =>
                if 1 ≤ cyc then
                  some (.cometA ty (dv y1 * 1000 + dv y2 * 100 + dv y3 * 10 + dv y4) hm og
                    cyc)
                else none
              | _ => none
          | none => none
    else none
  | _ => none

/-- Modelled from the spec: pack-side grammar of a numbered periodic
comet designation such as `P/41` or `P/3141-AZ`. -/
def parse3 (l : List Char) : Option Des :=
  match l with
  | ty :: '/' :: rest =>
    if tyOK ty then
      match parseNat rest with
      | some (n, []) => some (.cometN ty n none)
      | some (n, ['-', a]) => if isUC a then some (.cometN ty n (some (.one a))) else none
      | some (n, ['-', a, b]) =>
        if isUC a && isUC b then some (.cometN ty n (some (.two a b))) else none
      | _ => none
    else none
  | _ => none

/-- Modelled from the spec: pack-side grammar of a natural-satellite
designation such as `S/2003 J 2`. -/
def parse4 (l : List Char) : Option Des :=
  match l with
  | 'S' :: '/' :: y1 :: y2 :: y3 :: y4 :: ' ' :: pl :: ' ' :: rest =>
    if isDig y1 && isDig y2 && isDig y3 && isDig y4 && splOK pl then
      match parseNat rest with
      | some (n, []) =>
        some (.sat pl (dv y1 * 1000 + dv y2 * 100 + dv y3 * 10 + dv y4) n)
      | _ => none
    else none
  | _ => none

/-- Parse the numeral part of a legacy category-5 designation: an Arabic
number or a canonical Roman numeral. -/
def parseNum5 (l : List Char) : Option Nat :=
  match parseNat l with
  | some (n, []) => some n
  | _ => parseRoman l

/-- Parse a legacy category-5 designation for one candidate planet. -/
def parse5one (i : Nat) (l : List Char) : Option Des :=
  if (planetNameL i ++ [' ']).isPrefixOf l then
    match parseNum5 (l.drop (planetNameL i ++ [' ']).length) with
    | some n => if 1 ≤ n && n ≤ 999 then some (.roman i n) else none
    | none => none
  else none

/-- Modelled from the spec: pack-side grammar of a legacy category-5
designation such as `Neptune 210` or `Uranus XXIV`; Arabic and Roman
numerals are both accepted. -/
def parse5 (l : List Char) : Option Des :=
  match parse5one 0 l with
  | some d => some d
  | none =>
    match parse5one 1 l with
    | some d => some d
    | none =>
      match parse5one 2 l with
      | some d => some d
      | none => parse5one 3 l

/-- Dispatch the per-category parsers on the category hint. -/
def parseCat (c : Int) (l : List Char) : Option Des :=
  if c = 0 then parse0 l
  else if c = 1 then parse1 l
  else if c = 2 then parse2 l
  else if c = 3 then parse3 l
  else if c = 4 then parse4 l
  else if c = 5 then parse5 l
  else none

/-! ## Validity and the top-level operations -/

/-- Modelled from the spec: representable-range check of a structured
designation, used by `pack` to signal `OutOfRange`.  Cycle counts up to
619 use the historical two-character scheme and accept years 1800-2099;
larger cycle counts require the base-62 extension, whose encoded value
`(cyc - 620) * 25 + ord` must fit in four base-62 digits and whose
single year character covers 2000-2061. -/
def desOK : Des → Bool
  | .numbered n => 1 ≤ n && n ≤ 15396335
  | .prov y hm ord cyc =>
    hmOK hm && ord < 25 &&
      (if cyc ≤ 619 then 1800 ≤ y && y ≤ 2099
       else 2000 ≤ y && y ≤ 2061 && (cyc - 620) * 25 + ord < 14776336)
  | .survey _ n => 1 ≤ n && n ≤ 9999
  | .cometP ty y hm num frag =>
    tyOK ty && hmOK hm && 1800 ≤ y && y ≤ 2099 && 1 ≤ num && num ≤ 619 &&
      (match frag with | none => true | some f => isUC f)
  | .cometA ty y hm ord cyc =>
    tyOK ty && hmOK hm && ord < 25 &&
      (if cyc ≤ 619 then 1800 ≤ y && y ≤ 2099
       else 2000 ≤ y && y ≤ 2061 && (cyc - 620) * 25 + ord < 14776336)
  | .cometN ty n frag =>
    tyOK ty && 1 ≤ n && n ≤ 9999 &&
      (match frag with
       | none => true
       | some (.one a) => isUC a
       | some (.two a b) => isUC a && isUC b)
  | .sat pl y n => splOK pl && 1800 ≤ y && y ≤ 2099 && 1 ≤ n && n ≤ 619
  | .roman pl n => pl < 4 && 1 ≤ n && n ≤ 999
  | .other6 s => valid6B s
  | .passthru s => (unpackChars s).isNone

/-- Error taxonomy of the pack operation. -/
inductive PackErr where
  | UnrecognizedDesignation
  | OutOfRange
deriving DecidableEq

/-- Modelled from the spec: `pack(designation_text, category_hint)`.
Categories -1 and 6 are identity pass-throughs; the other categories
parse the text against the category's grammar (failure signals
`UnrecognizedDesignation`), check representable ranges (failure signals
`OutOfRange`) and emit the packed characters. -/
def pack (s : String) (c : Int) : Except PackErr String :=
  if c = -1 then
    if (unpackChars s.data).isNone then .ok s else .error .UnrecognizedDesignation
  else if c = 6 then
    if valid6B s.data then .ok s else .error .UnrecognizedDesignation
  else
    match parseCat c s.data with
    | none => .error .UnrecognizedDesignation
    | some d => if desOK d then .ok (String.mk (packChars d)) else .error .OutOfRange

/-- Modelled from the spec: `unpack(packed_text)`, returning the
canonical human-readable designation and its category.  Packed strings
matching no known layout are returned unchanged with category -1, as the
fixture's pass-through entries require. -/
def unpack (s : String) : String × Int :=
  match unpackChars s.data with
  | some d => (String.mk (render d), desCat d)
  | none => (s, -1)

/-! ## Character-class facts used by the round-trip proofs -/

theorem isDig_b62_hi : ∀ v < 62, 10 ≤ v → isDig (base62_char v) = false := by decide

theorem b62_ne_tilde : ∀ v < 62, base62_char v ≠ '~' := by decide

theorem b62_ne_underscore : ∀ v < 62, base62_char v ≠ '_' := by decide

theorem tyOK_char (c : Char) (h : tyOK c = true) :
    c = 'P' ∨ c = 'C' ∨ c = 'D' ∨ c = 'X' ∨ c = 'A' := by
  simp [tyOK] at h
  tauto

theorem tyOK_not_dig (c : Char) (h : tyOK c = true) : isDig c = false := by
  rcases tyOK_char c h with h1 | h1 | h1 | h1 | h1 <;> subst h1 <;> decide

theorem tyOK_ne_S (c : Char) (h : tyOK c = true) : c ≠ 'S' := by
  rcases tyOK_char c h with h1 | h1 | h1 | h1 | h1 <;> subst h1 <;> decide

theorem tyOK_ne_dash (c : Char) (h : tyOK c = true) : c ≠ '-' := by
  rcases tyOK_char c h with h1 | h1 | h1 | h1 | h1 <;> subst h1 <;> decide

theorem isLC_ne_zero (c : Char) (h : isLC c = true) : c ≠ '0' := by
  intro he
  subst he
  revert h
  decide

theorem isLC_ne_space (c : Char) (h : isLC c = true) : c ≠ ' ' := by
  intro he
  subst he
  revert h
  decide

theorem order_char_not_lc : ∀ i < 25, isLC (order_char i) = false := by decide

theorem order_char_ne_zero : ∀ i < 25, order_char i ≠ '0' := by decide

theorem isDig_planetChar : ∀ p < 4, isDig (planetChar p) = false := by decide

theorem planetChar_ne_tilde : ∀ p < 4, planetChar p ≠ '~' := by decide

theorem centuryVal_b62_18 (k : Nat) (h18 : 18 ≤ k) (h20 : k ≤ 20) :
    base62_char k ≠ '_' := by
  interval_cases k <;> decide

theorem digitChar_congr (m k : Nat) (h : m % 10 = k % 10) : digitChar m = digitChar k := by
  simp [digitChar, h]

theorem digitChar_dv_mod (c : Char) (h : isDig c = true) (m : Nat)
    (hm : m % 10 = dv c) : digitChar m = c := by
  have h1 : digitChar m = digitChar (dv c) := by
    apply digitChar_congr
    rw [hm]
    have := dv_lt_ten c h
    omega
  rw [h1, digitChar_dv c h]

theorem pad2_recompose (a b : Char) (ha : isDig a = true) (hb : isDig b = true) :
    pad2 (dv a * 10 + dv b) = [a, b] := by
  have hb10 := dv_lt_ten b hb
  unfold pad2
  congr 1
  · apply digitChar_dv_mod a ha
    have ha10 := dv_lt_ten a ha
    omega
  · congr 1
    apply digitChar_dv_mod b hb
    omega

theorem pad4_recompose (a b c d : Char) (ha : isDig a = true) (hb : isDig b = true)
    (hc : isDig c = true) (hd : isDig d = true) :
    pad4 (dv a * 1000 + dv b * 100 + dv c * 10 + dv d) = [a, b, c, d] := by
  have ha10 := dv_lt_ten a ha
  have hb10 := dv_lt_ten b hb
  have hc10 := dv_lt_ten c hc
  have hd10 := dv_lt_ten d hd
  unfold pad4
  congr 1
  · apply digitChar_dv_mod a ha
    omega
  congr 1
  · apply digitChar_dv_mod b hb
    omega
  congr 1
  · apply digitChar_dv_mod c hc
    omega
  congr 1
  apply digitChar_dv_mod d hd
  omega

theorem order_char_order_index (c : Char) (i : Nat)
    (h : order_index c = some i) : order_char i = c := by
  unfold order_index at h
  split at h
  · rename_i h1
    simp at h h1
    unfold order_char
    rw [if_pos (by omega)]
    have : 65 + i = c.toNat := by omega
    rw [this, Char.ofNat_toNat]
  · split at h
    · rename_i h1 h2
      simp at h h1 h2
      unfold order_char
      rw [if_neg (by omega)]
      have : 66 + i = c.toNat := by omega
      rw [this, Char.ofNat_toNat]
    · simp at h

theorem order_index_lt (c : Char) (i : Nat) (h : order_index c = some i) : i < 25 := by
  unfold order_index at h
  split at h
  · rename_i h1
    simp at h h1
    omega
  · split at h
    · rename_i h1 h2
      simp at h h1 h2
      omega
    · simp at h

/-! ## Round-trip of packing then unpacking, per category -/

theorem unpack_pack_numbered (n : Nat) (h1 : 1 ≤ n) (h2 : n ≤ 15396335) :
    unpackChars (packChars (.numbered n)) = some (.numbered n) := by
  by_cases ha : n ≤ 99999
  · have e : packChars (Des.numbered n) = [digitChar (n / 10000), digitChar (n / 1000),
        digitChar (n / 100), digitChar (n / 10), digitChar n] := by
      simp [packChars, ha]
    rw [e]
    simp only [unpackChars]
    unfold unpack5
    rw [if_pos (by simp [isDig_digitChar])]
    simp only [dv_digitChar, Option.some.injEq, Des.numbered.injEq]
    omega
  · by_cases hb : n ≤ 619999
    · have e : packChars (Des.numbered n) = [base62_char (n / 10000), digitChar (n / 1000),
          digitChar (n / 100), digitChar (n / 10), digitChar n] := by
        simp [packChars, ha, hb]
      have hna : isDig (base62_char (n / 10000)) = false :=
        isDig_b62_hi (n / 10000) (by omega) (by omega)
      have hva : digit_value (base62_char (n / 10000)) = some (n / 10000) :=
        digit_value_base62_char _ (by omega)
      rw [e]
      simp only [unpackChars]
      unfold unpack5
      rw [if_neg (by simp [hna]), if_neg (by simp [hna]),
        if_neg (b62_ne_tilde (n / 10000) (by omega))]
      simp only [hva]
      rw [if_pos (by simp [isDig_digitChar, decide_eq_true_eq]; omega)]
      simp only [dv_digitChar, Option.some.injEq, Des.numbered.injEq]
      omega
    · have e : packChars (Des.numbered n) = '~' :: b62of4 (n - 620000) := by
        simp [packChars, ha, hb]
      rw [e]
      unfold b62of4
      simp only [unpackChars]
      unfold unpack5
      have htl : isDig '~' = false := by decide
      rw [if_neg (by simp [htl]), if_neg (by simp [htl]), if_pos rfl]
      rw [b62val4_b62of4 _ (by omega)]
      simp only [Option.some.injEq, Des.numbered.injEq]
      omega

theorem unpack_pack_prov (y : Nat) (hm : Char) (ord cyc : Nat)
    (hhm : hmOK hm = true) (hord : ord < 25)
    (hy1 : cyc ≤ 619 → 1800 ≤ y ∧ y ≤ 2099)
    (hy2 : 620 ≤ cyc → 2000 ≤ y ∧ y ≤ 2061 ∧ (cyc - 620) * 25 + ord < 14776336) :
    unpackChars (packChars (.prov y hm ord cyc)) = some (.prov y hm ord cyc) := by
  by_cases hc : cyc ≤ 619
  · obtain ⟨hya, hyb⟩ := hy1 hc
    have e : packChars (Des.prov y hm ord cyc) =
        [base62_char (y / 100), digitChar (y / 10), digitChar y, hm,
         base62_char (cyc / 10), digitChar cyc, order_char ord] := by
      simp [packChars, hc, yearP, pad2, cc2]
    rw [e]
    simp only [unpackChars]
    unfold unpack7
    rw [centuryVal_base62_char (y / 100) (by omega) (by omega)]
    simp only []
    rw [if_pos (by simp [isDig_digitChar, hhm]), cc2val_cc2 cyc hc,
      order_index_order_char ord hord]
    simp only [dv_digitChar, Option.some.injEq, Des.prov.injEq]
    simp
    omega
  · obtain ⟨hya, hyb, hv⟩ := hy2 (by omega)
    have e : packChars (Des.prov y hm ord cyc) =
        '_' :: base62_char (y - 2000) :: hm :: b62of4 ((cyc - 620) * 25 + ord) := by
      simp [packChars, hc]
    rw [e]
    unfold b62of4
    simp only [unpackChars]
    unfold unpack7
    rw [show centuryVal '_' = none from by decide]
    simp only [if_true]
    rw [digit_value_base62_char (y - 2000) (by omega), b62val4_b62of4 _ hv]
    simp only []
    rw [if_pos hhm]
    simp only [Option.some.injEq, Des.prov.injEq]
    simp
    omega

theorem survey_aux (c1 c2 : Char) (sv : Survey) (n : Nat) (h2 : n ≤ 9999)
    (hcv : centuryVal c1 = none) (hu : c1 ≠ '_') (hs : surveyOfChars c1 c2 = some sv) :
    unpack7 c1 c2 'S' (digitChar (n / 1000)) (digitChar (n / 100)) (digitChar (n / 10))
      (digitChar n) = some (.survey sv n) := by
  unfold unpack7
  rw [hcv]
  simp only []
  rw [if_neg hu, hs]
  simp only []
  rw [if_pos (by simp [isDig_digitChar])]
  simp only [dv_digitChar, Option.some.injEq, Des.survey.injEq]
  simp
  omega

theorem unpack_pack_survey (sv : Survey) (n : Nat) (h1 : 1 ≤ n) (h2 : n ≤ 9999) :
    unpackChars (packChars (.survey sv n)) = some (.survey sv n) := by
  cases sv
  · have e : packChars (Des.survey Survey.PL n) =
        ['P', 'L', 'S', digitChar (n / 1000), digitChar (n / 100), digitChar (n / 10),
         digitChar n] := by
      simp [packChars, surveyChars, pad4]
    rw [e]
    simp only [unpackChars]
    exact survey_aux 'P' 'L' Survey.PL n h2 (by decide) (by decide) (by decide)
  · have e : packChars (Des.survey Survey.T1 n) =
        ['T', '1', 'S', digitChar (n / 1000), digitChar (n / 100), digitChar (n / 10),
         digitChar n] := by
      simp [packChars, surveyChars, pad4]
    rw [e]
    simp only [unpackChars]
    exact survey_aux 'T' '1' Survey.T1 n h2 (by decide) (by decide) (by decide)
  · have e : packChars (Des.survey Survey.T2 n) =
        ['T', '2', 'S', digitChar (n / 1000), digitChar (n / 100), digitChar (n / 10),
         digitChar n] := by
      simp [packChars, surveyChars, pad4]
    rw [e]
    simp only [unpackChars]
    exact survey_aux 'T' '2' Survey.T2 n h2 (by decide) (by decide) (by decide)
  · have e : packChars (Des.survey Survey.T3 n) =
        ['T', '3', 'S', digitChar (n / 1000), digitChar (n / 100), digitChar (n / 10),
         digitChar n] := by
      simp [packChars, surveyChars, pad4]
    rw [e]
    simp only [unpackChars]
    exact survey_aux 'T' '3' Survey.T3 n h2 (by decide) (by decide) (by decide)

theorem roman_aux (pc : Char) (pl n : Nat) (h1 : 1 ≤ n) (h2 : n ≤ 999)
    (hd : isDig pc = false) (ht : pc ≠ '~') (hv : ∃ w, digit_value pc = some w)
    (hp : planetIdx pc = some pl) :
    unpack5 pc (digitChar (n / 100)) (digitChar (n / 10)) (digitChar n) 'S' =
      some (.roman pl n) := by
  unfold unpack5
  rw [if_neg (by simp [hd]), if_neg (by simp [hd]), if_neg ht]
  obtain ⟨w, hw⟩ := hv
  rw [hw]
  simp only []
  rw [if_neg (by simp [show isDig 'S' = false from by decide]), hp]
  simp only []
  rw [if_pos (by simp [isDig_digitChar, dv_digitChar, decide_eq_true_eq]; omega)]
  simp only [dv_digitChar, Option.some.injEq, Des.roman.injEq]
  simp
  omega

theorem unpack_pack_roman (pl n : Nat) (hpl : pl < 4) (h1 : 1 ≤ n) (h2 : n ≤ 999) :
    unpackChars (packChars (.roman pl n)) = some (.roman pl n) := by
  interval_cases pl
  · have e : packChars (Des.roman 0 n) =
        ['J', digitChar (n / 100), digitChar (n / 10), digitChar n, 'S'] := by
      simp [packChars, planetChar, pad3]
    rw [e]
    simp only [unpackChars]
    exact roman_aux 'J' 0 n h1 h2 (by decide) (by decide) ⟨19, by decide⟩ (by decide)
  · have e : packChars (Des.roman 1 n) =
        ['S', digitChar (n / 100), digitChar (n / 10), digitChar n, 'S'] := by
      simp [packChars, planetChar, pad3]
    rw [e]
    simp only [unpackChars]
    exact roman_aux 'S' 1 n h1 h2 (by decide) (by decide) ⟨28, by decide⟩ (by decide)
  · have e : packChars (Des.roman 2 n) =
        ['U', digitChar (n / 100), digitChar (n / 10), digitChar n, 'S'] := by
      simp [packChars, planetChar, pad3]
    rw [e]
    simp only [unpackChars]
    exact roman_aux 'U' 2 n h1 h2 (by decide) (by decide) ⟨30, by decide⟩ (by decide)
  · have e : packChars (Des.roman 3 n) =
        ['N', digitChar (n / 100), digitChar (n / 10), digitChar n, 'S'] := by
      simp [packChars, planetChar, pad3]
    rw [e]
    simp only [unpackChars]
    exact roman_aux 'N' 3 n h1 h2 (by decide) (by decide) ⟨23, by decide⟩ (by decide)

theorem unpack_pack_cometP (ty : Char) (y : Nat) (hm : Char) (num : Nat)
    (frag : Option Char) (hty : tyOK ty = true) (hhm : hmOK hm = true)
    (hy1 : 1800 ≤ y) (hy2 : y ≤ 2099) (hn2 : num ≤ 619)
    (hf : ∀ f, frag = some f → isUC f = true) :
    unpackChars (packChars (.cometP ty y hm num frag)) =
      some (.cometP ty y hm num frag) := by
  cases frag with
  | none =>
    have e : packChars (Des.cometP ty y hm num none) =
        [ty, base62_char (y / 100), digitChar (y / 10), digitChar y, hm,
         base62_char (num / 10), digitChar num, '0'] := by
      simp [packChars, yearP, pad2, cc2]
    rw [e]
    simp only [unpackChars]
    unfold unpack8
    rw [if_neg (tyOK_ne_S ty hty), if_pos hty,
      if_neg (centuryVal_b62_18 (y / 100) (by omega) (by omega)),
      centuryVal_base62_char (y / 100) (by omega) (by omega), cc2val_cc2 num hn2]
    simp only []
    rw [if_pos (by simp [isDig_digitChar, hhm])]
    simp only [if_true]
    simp only [dv_digitChar, Option.some.injEq, Des.cometP.injEq]
    simp
    omega
  | some f =>
    have hfu : isUC f = true := hf f rfl
    have hlc : isLC (lcChar f) = true := isLC_lcChar f hfu
    have e : packChars (Des.cometP ty y hm num (some f)) =
        [ty, base62_char (y / 100), digitChar (y / 10), digitChar y, hm,
         base62_char (num / 10), digitChar num, lcChar f] := by
      simp [packChars, yearP, pad2, cc2]
    rw [e]
    simp only [unpackChars]
    unfold unpack8
    rw [if_neg (tyOK_ne_S ty hty), if_pos hty,
      if_neg (centuryVal_b62_18 (y / 100) (by omega) (by omega)),
      centuryVal_base62_char (y / 100) (by omega) (by omega), cc2val_cc2 num hn2]
    simp only []
    rw [if_pos (by simp [isDig_digitChar, hhm]),
      if_neg (isLC_ne_zero _ hlc), if_pos hlc, ucChar_lcChar f hfu]
    simp only [dv_digitChar, Option.some.injEq, Des.cometP.injEq]
    simp
    omega

theorem unpack_pack_cometA (ty : Char) (y : Nat) (hm : Char) (ord cyc : Nat)
    (hty : tyOK ty = true) (hhm : hmOK hm = true) (hord : ord < 25)
    (hy1 : cyc ≤ 619 → 1800 ≤ y ∧ y ≤ 2099)
    (hy2 : 620 ≤ cyc → 2000 ≤ y ∧ y ≤ 2061 ∧ (cyc - 620) * 25 + ord < 14776336) :
    unpackChars (packChars (.cometA ty y hm ord cyc)) =
      some (.cometA ty y hm ord cyc) := by
  by_cases hc : cyc ≤ 619
  · obtain ⟨hya, hyb⟩ := hy1 hc
    have e : packChars (Des.cometA ty y hm ord cyc) =
        [ty, base62_char (y / 100), digitChar (y / 10), digitChar y, hm,
         base62_char (cyc / 10), digitChar cyc, order_char ord] := by
      simp [packChars, hc, yearP, pad2, cc2]
    rw [e]
    simp only [unpackChars]
    unfold unpack8
    rw [if_neg (tyOK_ne_S ty hty), if_pos hty,
      if_neg (centuryVal_b62_18 (y / 100) (by omega) (by omega)),
      centuryVal_base62_char (y / 100) (by omega) (by omega), cc2val_cc2 cyc hc]
    simp only []
    rw [if_pos (by simp [isDig_digitChar, hhm]),
      if_neg (order_char_ne_zero ord hord)]
    rw [show isLC (order_char ord) = false from order_char_not_lc ord hord]
    simp only [Bool.false_eq_true, if_false, order_index_order_char ord hord]
    simp only [dv_digitChar, Option.some.injEq, Des.cometA.injEq]
    simp
    omega
  · obtain ⟨hya, hyb, hv⟩ := hy2 (by omega)
    have e : packChars (Des.cometA ty y hm ord cyc) =
        ty :: '_' :: base62_char (y - 2000) :: hm ::
          b62of4 ((cyc - 620) * 25 + ord) := by
      simp [packChars, hc]
    rw [e]
    unfold b62of4
    simp only [unpackChars]
    unfold unpack8
    rw [if_neg (tyOK_ne_S ty hty), if_pos hty, if_pos rfl,
      digit_value_base62_char (y - 2000) (by omega), b62val4_b62of4 _ hv]
    simp only []
    rw [if_pos hhm]
    simp only [Option.some.injEq, Des.cometA.injEq]
    simp
    omega

theorem unpack_pack_cometN (ty : Char) (n : Nat) (frag : Option Frag)
    (hty : tyOK ty = true) (h1 : 1 ≤ n) (h2 : n ≤ 9999)
    (hf : ∀ fr, frag = some fr → (match fr with
      | .one a => isUC a = true
      | .two a b => isUC a = true ∧ isUC b = true)) :
    unpackChars (packChars (.cometN ty n frag)) = some (.cometN ty n frag) := by
  have htyd : isDig ty = false := tyOK_not_dig ty hty
  cases frag with
  | none =>
    have e : packChars (Des.cometN ty n none) =
        [digitChar (n / 1000), digitChar (n / 100), digitChar (n / 10), digitChar n,
         ty] := by
      simp [packChars, pad4]
    rw [e]
    simp only [unpackChars]
    unfold unpack5
    rw [if_neg (by simp [htyd]), if_pos (by simp [isDig_digitChar, hty])]
    simp only [dv_digitChar, Option.some.injEq, Des.cometN.injEq]
    simp
    omega
  | some fr =>
    cases fr with
    | one a =>
      have hau : isUC a = true := hf (.one a) rfl
      have e : packChars (Des.cometN ty n (some (.one a))) =
          [digitChar (n / 1000), digitChar (n / 100), digitChar (n / 10), digitChar n,
           ty, ' ', ' ', ' ', ' ', ' ', ' ', lcChar a] := by
        simp [packChars, pad4, spaces, List.replicate]
      rw [e]
      simp only [unpackChars]
      unfold unpack12
      rw [if_pos (by simp [isDig_digitChar, hty]),
        if_pos (by simp [isLC_lcChar a hau]), ucChar_lcChar a hau]
      simp only [dv_digitChar, Option.some.injEq, Des.cometN.injEq]
      simp
      omega
    | two a b =>
      obtain ⟨hau, hbu⟩ := hf (.two a b) rfl
      have hla : isLC (lcChar a) = true := isLC_lcChar a hau
      have e : packChars (Des.cometN ty n (some (.two a b))) =
          [digitChar (n / 1000), digitChar (n / 100), digitChar (n / 10), digitChar n,
           ty, ' ', ' ', ' ', ' ', ' ', lcChar a, lcChar b] := by
        simp [packChars, pad4, spaces, List.replicate]
      rw [e]
      simp only [unpackChars]
      unfold unpack12
      rw [if_pos (by simp [isDig_digitChar, hty]),
        if_neg (by simp [isLC_ne_space _ hla]),
        if_pos (by simp [hla, isLC_lcChar b hbu]),
        ucChar_lcChar a hau, ucChar_lcChar b hbu]
      simp only [dv_digitChar, Option.some.injEq, Des.cometN.injEq]
      simp
      omega

theorem unpack_pack_sat (pl : Char) (y n : Nat) (hpl : splOK pl = true)
    (hy1 : 1800 ≤ y) (hy2 : y ≤ 2099) (hn2 : n ≤ 619) :
    unpackChars (packChars (.sat pl y n)) = some (.sat pl y n) := by
  have e : packChars (Des.sat pl y n) =
      ['S', base62_char (y / 100), digitChar (y / 10), digitChar y, pl,
       base62_char (n / 10), digitChar n, '0'] := by
    simp [packChars, yearP, pad2, cc2]
  rw [e]
  simp only [unpackChars]
  unfold unpack8
  rw [if_pos rfl, centuryVal_base62_char (y / 100) (by omega) (by omega),
    cc2val_cc2 n hn2]
  simp only []
  rw [if_pos (by simp [isDig_digitChar, hpl])]
  simp only [dv_digitChar, Option.some.injEq, Des.sat.injEq]
  simp
  omega

theorem unpack_valid6 (l : List Char) (h : valid6B l = true) :
    unpackChars l = some (.other6 l) := by
  rcases l with _ | ⟨a, _ | ⟨b, _ | ⟨c, _ | ⟨d, _ | ⟨e, _ | ⟨f, _ | ⟨g, _ | ⟨h8, tail⟩⟩⟩⟩⟩⟩⟩⟩
  · simp [valid6B] at h
  · simp [valid6B] at h
  · simp [valid6B] at h
  · simp [valid6B] at h
  · simp [valid6B] at h
  · simp [valid6B] at h
  · simp [valid6B] at h
  · simp [valid6B] at h
  · have hcomp := h
    simp only [valid6B, Bool.and_eq_true, decide_eq_true_eq] at hcomp
    obtain ⟨⟨⟨⟨⟨⟨⟨⟨⟨ha, hb⟩, hc⟩, hd⟩, he⟩, hf⟩, hg⟩, hh⟩, htne⟩, htuc⟩ := hcomp
    rcases tail with _ | ⟨t1, _ | ⟨t2, _ | ⟨t3, _ | ⟨t4, _ | ⟨t5, rest⟩⟩⟩⟩⟩
    · simp at htne
    · show (if valid6B [a, b, c, d, e, f, g, h8, t1] = true
          then some (Des.other6 [a, b, c, d, e, f, g, h8, t1]) else none) = _
      rw [if_pos h]
    · show (if valid6B [a, b, c, d, e, f, g, h8, t1, t2] = true
          then some (Des.other6 [a, b, c, d, e, f, g, h8, t1, t2]) else none) = _
      rw [if_pos h]
    · show (if valid6B [a, b, c, d, e, f, g, h8, t1, t2, t3] = true
          then some (Des.other6 [a, b, c, d, e, f, g, h8, t1, t2, t3]) else none) = _
      rw [if_pos h]
    · show unpack12 a b c d e f g h8 t1 t2 t3 t4 = _
      unfold unpack12
      subst he
      rw [if_neg (by simp [show tyOK '-' = false from by decide]), if_pos h]
    · show (if valid6B (a :: b :: c :: d :: e :: f :: g :: h8 :: t1 :: t2 :: t3 :: t4 ::
            t5 :: rest) = true
          then some (Des.other6 (a :: b :: c :: d :: e :: f :: g :: h8 :: t1 :: t2 ::
            t3 :: t4 :: t5 :: rest)) else none) = _
      rw [if_pos h]

/-! ## Soundness of the per-category text parsers -/

theorem parse1_sound (l : List Char) (d : Des) (hp : parse1 l = some d)
    (hok : desOK d = true) :
    render d = l ∧ unpackChars (packChars d) = some d ∧ desCat d = 1 := by
  unfold parse1 at hp
  split at hp
  · rename_i rest
    split at hp
    · rename_i x n hpn
      split at hp
      · rename_i hn1
        simp only [Option.some.injEq] at hp
        subst hp
        simp only [desOK, Bool.and_eq_true, decide_eq_true_eq] at hok
        obtain ⟨hok1, hok2⟩ := hok
        refine ⟨?_, unpack_pack_numbered n hok1 hok2, rfl⟩
        obtain ⟨hres, _⟩ := parseNat_sound rest n [')'] hpn
        simp only [render]
        rw [hres]
      · simp at hp
    · simp at hp
  · simp at hp

theorem parseProv_sound (l : List Char) (d : Des) (hp : parseProv l = some d)
    (hok : desOK d = true) :
    render d = l ∧ unpackChars (packChars d) = some d ∧ desCat d = 0 := by
  unfold parseProv at hp
  split at hp
  · rename_i y1 y2 y3 y4 hm o rest2
    split at hp
    · rename_i hguard
      simp only [Bool.and_eq_true] at hguard
      obtain ⟨⟨⟨⟨h1, h2⟩, h3⟩, h4⟩, h5⟩ := hguard
      split at hp
      · rename_i og hog
        have hoc : order_char og = o := order_char_order_index o og hog
        have hol : og < 25 := order_index_lt o og hog
        have hy4 : dv y1 * 1000 + dv y2 * 100 + dv y3 * 10 + dv y4 < 10000 := by
          have := dv_lt_ten y1 h1
          have := dv_lt_ten y2 h2
          have := dv_lt_ten y3 h3
          have := dv_lt_ten y4 h4
          omega
        split at hp
        · rename_i hrest
          subst hrest
          simp only [Option.some.injEq] at hp
          subst hp
          simp only [desOK, Bool.and_eq_true, decide_eq_true_eq] at hok
          refine ⟨?_, ?_, rfl⟩
          · simp only [render]
            rw [pad4_recompose y1 y2 y3 y4 h1 h2 h3 h4, hoc]
            simp
          · apply unpack_pack_prov _ _ _ _ h5 hol
            · intro hcy
              rw [if_pos hcy] at hok
              simp at hok
              omega
            · intro hcy
              omega
        · rename_i hrest
          split at hp
          · rename_i x cyc hcyc
            split at hp
            · rename_i hc1
              simp only [Option.some.injEq] at hp
              subst hp
              simp only [desOK, Bool.and_eq_true, decide_eq_true_eq] at hok
              obtain ⟨⟨hokhm, hokord⟩, hokrange⟩ := hok
              refine ⟨?_, ?_, rfl⟩
              · simp only [render]
                rw [pad4_recompose y1 y2 y3 y4 h1 h2 h3 h4, hoc]
                obtain ⟨hres, _⟩ := parseNat_sound rest2 cyc [] hcyc
                simp at hres
                rw [if_neg (show ¬cyc = 0 by omega), hres]
                simp
              · apply unpack_pack_prov _ _ _ _ h5 hol
                · intro hcy
                  rw [if_pos hcy] at hokrange
                  simp at hokrange
                  omega
                · intro hcy
                  rw [if_neg (by omega)] at hokrange
                  simp at hokrange
                  omega
            · simp at hp
          · simp at hp
      · simp at hp
    · simp at hp
  · simp at hp

theorem surveyName_of (c1 c2 : Char) (sv : Survey) (h : surveyOfName c1 c2 = some sv) :
    surveyName sv = [c1, '-', c2] := by
  unfold surveyOfName at h
  split at h
  · rename_i hc
    simp only [Bool.and_eq_true, decide_eq_true_eq] at hc
    obtain ⟨e1, e2⟩ := hc
    subst e1
    subst e2
    simp only [Option.some.injEq] at h
    subst h
    rfl
  · split at h
    · rename_i hc
      simp only [Bool.and_eq_true, decide_eq_true_eq] at hc
      obtain ⟨e1, e2⟩ := hc
      subst e1
      subst e2
      simp only [Option.some.injEq] at h
      subst h
      rfl
    · split at h
      · rename_i hc
        simp only [Bool.and_eq_true, decide_eq_true_eq] at hc
        obtain ⟨e1, e2⟩ := hc
        subst e1
        subst e2
        simp only [Option.some.injEq] at h
        subst h
        rfl
      · split at h
        · rename_i hc
          simp only [Bool.and_eq_true, decide_eq_true_eq] at hc
          obtain ⟨e1, e2⟩ := hc
          subst e1
          subst e2
          simp only [Option.some.injEq] at h
          subst h
          rfl
        · simp at h

theorem parseSurvey_sound (l : List Char) (d : Des) (hp : parseSurvey l = some d)
    (hok : desOK d = true) :
    render d = l ∧ unpackChars (packChars d) = some d ∧ desCat d = 0 := by
  unfold parseSurvey at hp
  split at hp
  · rename_i x n c1 c2 hpn
    split at hp
    · rename_i sv hsv
      simp only [Option.some.injEq] at hp
      subst hp
      simp only [desOK, Bool.and_eq_true, decide_eq_true_eq] at hok
      obtain ⟨hok1, hok2⟩ := hok
      refine ⟨?_, unpack_pack_survey sv n hok1 hok2, rfl⟩
      obtain ⟨hres, _⟩ := parseNat_sound l n (' ' :: c1 :: '-' :: c2 :: []) hpn
      simp only [render]
      rw [surveyName_of c1 c2 sv hsv, ← hres]
    · simp at hp
  · simp at hp

theorem parse2_sound (l : List Char) (d : Des) (hp : parse2 l = some d)
    (hok : desOK d = true) :
    render d = l ∧ unpackChars (packChars d) = some d ∧ desCat d = 2 := by
  unfold parse2 at hp
  split at hp
  · rename_i ty y1 y2 y3 y4 hm rest
    split at hp
    · rename_i hguard
      simp only [Bool.and_eq_true] at hguard
      obtain ⟨⟨⟨⟨⟨hty, h1⟩, h2⟩, h3⟩, h4⟩, h5⟩ := hguard
      have hy4 : dv y1 * 1000 + dv y2 * 100 + dv y3 * 10 + dv y4 < 10000 := by
        have := dv_lt_ten y1 h1
        have := dv_lt_ten y2 h2
        have := dv_lt_ten y3 h3
        have := dv_lt_ten y4 h4
        omega
      split at hp
      · simp at hp
      · rename_i c rest2
        split at hp
        · rename_i hcd
          split at hp
          · rename_i x num hpn
            simp only [Option.some.injEq] at hp
            subst hp
            simp only [desOK, Bool.and_eq_true, decide_eq_true_eq] at hok
            obtain ⟨⟨⟨⟨⟨⟨hokty, hokhm⟩, hoky1⟩, hoky2⟩, hokn1⟩, hokn2⟩, hokf⟩ := hok
            refine ⟨?_, unpack_pack_cometP ty _ hm num none hokty hokhm hoky1 hoky2
              hokn2 (by simp), rfl⟩
            simp only [render]
            obtain ⟨hres, _⟩ := parseNat_sound (c :: rest2) num [] hpn
            simp at hres
            rw [pad4_recompose y1 y2 y3 y4 h1 h2 h3 h4]
            simp [hres]
          · rename_i x num f hpn
            split at hp
            · rename_i hfu
              simp only [Option.some.injEq] at hp
              subst hp
              simp only [desOK, Bool.and_eq_true, decide_eq_true_eq] at hok
              obtain ⟨⟨⟨⟨⟨⟨hokty, hokhm⟩, hoky1⟩, hoky2⟩, hokn1⟩, hokn2⟩, hokf⟩ := hok
              refine ⟨?_, unpack_pack_cometP ty _ hm num (some f) hokty hokhm hoky1
                hoky2 hokn2 (by intro g hg; cases hg; exact hokf), rfl⟩
              simp only [render]
              obtain ⟨hres, _⟩ := parseNat_sound (c :: rest2) num ['-', f] hpn
              rw [pad4_recompose y1 y2 y3 y4 h1 h2 h3 h4]
              simp [hres]
            · simp at hp
          · simp at hp
        · split at hp
          · rename_i og hog
            have hoc : order_char og = c := order_char_order_index c og hog
            have hol : og < 25 := order_index_lt c og hog
            split at hp
            · rename_i hrest
              subst hrest
              simp only [Option.some.injEq] at hp
              subst hp
              simp only [desOK, Bool.and_eq_true, decide_eq_true_eq] at hok
              obtain ⟨⟨⟨hokty, hokhm⟩, hokord⟩, hokrange⟩ := hok
              refine ⟨?_, ?_, rfl⟩
              · simp only [render]
                rw [pad4_recompose y1 y2 y3 y4 h1 h2 h3 h4, hoc]
                simp
              · apply unpack_pack_cometA _ _ _ _ _ hokty hokhm hol
                · intro hcy
                  rw [if_pos hcy] at hokrange
                  simp at hokrange
                  omega
                · intro hcy
                  omega
            · rename_i hrest
              split at hp
              · rename_i x cyc hcyc
                split at hp
                · rename_i hc1
                  simp only [Option.some.injEq] at hp
                  subst hp
                  simp only [desOK, Bool.and_eq_true, decide_eq_true_eq] at hok
                  obtain ⟨⟨⟨hokty, hokhm⟩, hokord⟩, hokrange⟩ := hok
                  refine ⟨?_, ?_, rfl⟩
                  · simp only [render]
                    rw [pad4_recompose y1 y2 y3 y4 h1 h2 h3 h4, hoc]
                    obtain ⟨hres, _⟩ := parseNat_sound rest2 cyc [] hcyc
                    simp at hres
                    rw [if_neg (show ¬cyc = 0 by omega), hres]
                    simp
                  · apply unpack_pack_cometA _ _ _ _ _ hokty hokhm hol
                    · intro hcy
                      rw [if_pos hcy] at hokrange
                      simp at hokrange
                      omega
                    · intro hcy
                      rw [if_neg (by omega)] at hokrange
                      simp at hokrange
                      omega
                · simp at hp
              · simp at hp
          · simp at hp
    · simp at hp
  · simp at hp

theorem parse3_sound (l : List Char) (d : Des) (hp : parse3 l = some d)
    (hok : desOK d = true) :
    render d = l ∧ unpackChars (packChars d) = some d ∧ desCat d = 3 := by
  unfold parse3 at hp
  split at hp
  · rename_i ty rest
    split at hp
    · rename_i hty
      split at hp
      · rename_i x n hpn
        simp only [Option.some.injEq] at hp
        subst hp
        simp only [desOK, Bool.and_eq_true, decide_eq_true_eq] at hok
        obtain ⟨⟨hokty, hokn1⟩, hokn2⟩ :
            (tyOK ty = true ∧ 1 ≤ n) ∧ n ≤ 9999 := by simpa using hok
        refine ⟨?_, unpack_pack_cometN ty n none hokty hokn1 hokn2 (by simp), rfl⟩
        simp only [render]
        obtain ⟨hres, _⟩ := parseNat_sound rest n [] hpn
        simp at hres
        simp [hres]
      · rename_i x n a hpn
        split at hp
        · rename_i hau
          simp only [Option.some.injEq] at hp
          subst hp
          simp only [desOK, Bool.and_eq_true, decide_eq_true_eq] at hok
          obtain ⟨⟨⟨hokty, hokn1⟩, hokn2⟩, hokf⟩ := hok
          refine ⟨?_, unpack_pack_cometN ty n (some (.one a)) hokty hokn1 hokn2
            (by intro fr hfr; cases hfr; exact hokf), rfl⟩
          simp only [render]
          obtain ⟨hres, _⟩ := parseNat_sound rest n ['-', a] hpn
          simp [hres]
        · simp at hp
      · rename_i x n a b hpn
        split at hp
        · rename_i hab
          simp only [Bool.and_eq_true] at hab
          simp only [Option.some.injEq] at hp
          subst hp
          simp only [desOK, Bool.and_eq_true, decide_eq_true_eq] at hok
          obtain ⟨⟨⟨hokty, hokn1⟩, hokn2⟩, hokf⟩ := hok
          refine ⟨?_, unpack_pack_cometN ty n (some (.two a b)) hokty hokn1 hokn2
            (by intro fr hfr; cases hfr; exact hokf), rfl⟩
          simp only [render]
          obtain ⟨hres, _⟩ := parseNat_sound rest n ['-', a, b] hpn
          simp [hres]
        · simp at hp
      · simp at hp
    · simp at hp
  · simp at hp

theorem parse4_sound (l : List Char) (d : Des) (hp : parse4 l = some d)
    (hok : desOK d = true) :
    render d = l ∧ unpackChars (packChars d) = some d ∧ desCat d = 4 := by
  unfold parse4 at hp
  split at hp
  · rename_i y1 y2 y3 y4 pl rest
    split at hp
    · rename_i hguard
      simp only [Bool.and_eq_true] at hguard
      obtain ⟨⟨⟨⟨h1, h2⟩, h3⟩, h4⟩, h5⟩ := hguard
      split at hp
      · rename_i x n hpn
        simp only [Option.some.injEq] at hp
        subst hp
        simp only [desOK, Bool.and_eq_true, decide_eq_true_eq] at hok
        obtain ⟨⟨⟨⟨hokpl, hoky1⟩, hoky2⟩, hokn1⟩, hokn2⟩ := hok
        refine ⟨?_, unpack_pack_sat pl _ n hokpl hoky1 hoky2 hokn2, rfl⟩
        simp only [render]
        obtain ⟨hres, _⟩ := parseNat_sound rest n [] hpn
        simp at hres
        rw [pad4_recompose y1 y2 y3 y4 h1 h2 h3 h4]
        simp [hres]
      · simp at hp
    · simp at hp
  · simp at hp

theorem parse0_sound (l : List Char) (d : Des) (hp : parse0 l = some d)
    (hok : desOK d = true) :
    render d = l ∧ unpackChars (packChars d) = some d ∧ desCat d = 0 := by
  unfold parse0 at hp
  split at hp
  · rename_i d2 hd2
    simp only [Option.some.injEq] at hp
    subst hp
    exact parseProv_sound l d2 hd2 hok
  · exact parseSurvey_sound l d hp hok

theorem string_mk_data (s : String) : String.mk s.data = s := by
  cases s
  rfl

theorem pack_ok_roundtrip (s p : String) (c : Int) (hc : c ≠ 5)
    (hp : pack s c = .ok p) : unpack p = (s, c) := by
  unfold pack at hp
  by_cases h1 : c = -1
  · subst h1
    rw [if_pos rfl] at hp
    split at hp
    · rename_i hnone
      simp only [Except.ok.injEq] at hp
      subst hp
      unfold unpack
      rw [Option.isNone_iff_eq_none] at hnone
      rw [hnone]
    · exact absurd hp (by simp)
  · rw [if_neg h1] at hp
    by_cases h6 : c = 6
    · subst h6
      rw [if_pos rfl] at hp
      split at hp
      · rename_i hv6
        simp only [Except.ok.injEq] at hp
        subst hp
        unfold unpack
        rw [unpack_valid6 s.data hv6]
        simp only [render, string_mk_data]
        rfl
      · exact absurd hp (by simp)
    · rw [if_neg h6] at hp
      split at hp
      · exact absurd hp (by simp)
      · rename_i d hd
        split at hp
        · rename_i hok
          simp only [Except.ok.injEq] at hp
          subst hp
          unfold parseCat at hd
          have hdata : (String.mk (packChars d)).data = packChars d := rfl
          by_cases hc0 : c = 0
          · subst hc0
            rw [if_pos rfl] at hd
            obtain ⟨hr, hu, hcat⟩ := parse0_sound s.data d hd hok
            unfold unpack
            rw [hdata, hu]
            simp only []
            rw [hr, string_mk_data, hcat]
          · rw [if_neg hc0] at hd
            by_cases hc1 : c = 1
            · subst hc1
              rw [if_pos rfl] at hd
              obtain ⟨hr, hu, hcat⟩ := parse1_sound s.data d hd hok
              unfold unpack
              rw [hdata, hu]
              simp only []
              rw [hr, string_mk_data, hcat]
            · rw [if_neg hc1] at hd
              by_cases hc2 : c = 2
              · subst hc2
                rw [if_pos rfl] at hd
                obtain ⟨hr, hu, hcat⟩ := parse2_sound s.data d hd hok
                unfold unpack
                rw [hdata, hu]
                simp only []
                rw [hr, string_mk_data, hcat]
              · rw [if_neg hc2] at hd
                by_cases hc3 : c = 3
                · subst hc3
                  rw [if_pos rfl] at hd
                  obtain ⟨hr, hu, hcat⟩ := parse3_sound s.data d hd hok
                  unfold unpack
                  rw [hdata, hu]
                  simp only []
                  rw [hr, string_mk_data, hcat]
                · rw [if_neg hc3] at hd
                  by_cases hc4 : c = 4
                  · subst hc4
                    rw [if_pos rfl] at hd
                    obtain ⟨hr, hu, hcat⟩ := parse4_sound s.data d hd hok
                    unfold unpack
                    rw [hdata, hu]
                    simp only []
                    rw [hr, string_mk_data, hcat]
                  · rw [if_neg hc4, if_neg hc] at hd
                    exact absurd hd (by simp)
        · exact absurd hp (by simp)

/-! ## Category 5: packing accepts Arabic and Roman, unpacking is Roman -/

theorem parseNum5_dec (n : Nat) : parseNum5 (natToDec n) = some n := by
  unfold parseNum5
  have h := parseNat_of_natToDec n [] (by intro c hc; simp at hc)
  simp only [List.append_nil] at h
  rw [h]

set_option maxRecDepth 10000 in
set_option maxHeartbeats 2000000 in
theorem parseNum5_rom : ∀ n, 1 ≤ n → n ≤ 999 → parseNum5 (toRoman n) = some n := by
  decide

theorem parse5one_self (i : Nat) (num : List Char) (n : Nat)
    (hnum : parseNum5 num = some n) (h1 : 1 ≤ n) (h2 : n ≤ 999) :
    parse5one i (planetNameL i ++ ' ' :: num) = some (.roman i n) := by
  unfold parse5one
  have hsplit : planetNameL i ++ ' ' :: num = (planetNameL i ++ [' ']) ++ num := by
    simp
  have hpre : (planetNameL i ++ [' ']).isPrefixOf (planetNameL i ++ ' ' :: num) = true := by
    rw [List.isPrefixOf_iff_prefix, hsplit]
    exact ⟨num, rfl⟩
  rw [if_pos hpre]
  have hdrop : (planetNameL i ++ ' ' :: num).drop (planetNameL i ++ [' ']).length = num := by
    rw [hsplit, List.drop_left]
  rw [hdrop, hnum]
  simp only []
  rw [if_pos (by simp only [Bool.and_eq_true, decide_eq_true_eq]; omega)]

theorem parse5_self (pl : Nat) (hpl : pl < 4) (num : List Char) (n : Nat)
    (hnum : parseNum5 num = some n) (h1 : 1 ≤ n) (h2 : n ≤ 999) :
    parse5 (planetNameL pl ++ ' ' :: num) = some (.roman pl n) := by
  interval_cases pl
  · unfold parse5
    rw [parse5one_self 0 num n hnum h1 h2]
  · unfold parse5
    rw [show parse5one 0 (planetNameL 1 ++ ' ' :: num) = none from rfl]
    rw [parse5one_self 1 num n hnum h1 h2]
  · unfold parse5
    rw [show parse5one 0 (planetNameL 2 ++ ' ' :: num) = none from rfl,
      show parse5one 1 (planetNameL 2 ++ ' ' :: num) = none from rfl]
    rw [parse5one_self 2 num n hnum h1 h2]
  · unfold parse5
    rw [show parse5one 0 (planetNameL 3 ++ ' ' :: num) = none from rfl,
      show parse5one 1 (planetNameL 3 ++ ' ' :: num) = none from rfl,
      show parse5one 2 (planetNameL 3 ++ ' ' :: num) = none from rfl]
    rw [parse5one_self 3 num n hnum h1 h2]

theorem pack5_both (pl n : Nat) (hpl : pl < 4) (h1 : 1 ≤ n) (h2 : n ≤ 999)
    (num : List Char) (hnum : parseNum5 num = some n) :
    pack (String.mk (planetNameL pl ++ ' ' :: num)) 5 =
      .ok (String.mk (packChars (.roman pl n))) := by
  unfold pack
  rw [if_neg (by decide), if_neg (by decide)]
  have hdata : (String.mk (planetNameL pl ++ ' ' :: num)).data =
      planetNameL pl ++ ' ' :: num := rfl
  rw [show parseCat 5 (String.mk (planetNameL pl ++ ' ' :: num)).data =
      parse5 (planetNameL pl ++ ' ' :: num) from rfl]
  rw [parse5_self pl hpl num n hnum h1 h2]
  simp only []
  rw [if_pos (by simp only [desOK, Bool.and_eq_true, decide_eq_true_eq]; omega)]

theorem unpack5_roman (pl n : Nat) (hpl : pl < 4) (h1 : 1 ≤ n) (h2 : n ≤ 999) :
    unpack (String.mk (packChars (.roman pl n))) =
      (String.mk (planetNameL pl ++ ' ' :: toRoman n), 5) := by
  unfold unpack
  have hdata : (String.mk (packChars (.roman pl n))).data = packChars (.roman pl n) := rfl
  rw [hdata, unpack_pack_roman pl n hpl h1 h2]
  simp only [render, desCat]

/-! ## Packed-field widths per category -/

theorem packChars_len (d : Des) :
    (desCat d = 1 → (packChars d).length = 5) ∧
    (desCat d = 0 → (packChars d).length = 7) ∧
    (desCat d = 2 → (packChars d).length = 8) ∧
    (desCat d = 3 → ((packChars d).length = 5 ∨ (packChars d).length = 12)) ∧
    (desCat d = 4 → (packChars d).length = 8) ∧
    (desCat d = 5 → (packChars d).length = 5) := by
  cases d with
  | numbered n =>
    refine ⟨fun _ => ?_, fun h => by simp [desCat] at h, fun h => by simp [desCat] at h,
      fun h => by simp [desCat] at h, fun h => by simp [desCat] at h,
      fun h => by simp [desCat] at h⟩
    simp only [packChars]
    split
    · rfl
    · split
      · rfl
      · simp [b62of4]
  | prov y hm ord cyc =>
    refine ⟨fun h => by simp [desCat] at h, fun _ => ?_, fun h => by simp [desCat] at h,
      fun h => by simp [desCat] at h, fun h => by simp [desCat] at h,
      fun h => by simp [desCat] at h⟩
    simp only [packChars]
    split
    · simp [yearP, pad2, cc2]
    · simp [b62of4]
  | survey sv n =>
    refine ⟨fun h => by simp [desCat] at h, fun _ => ?_, fun h => by simp [desCat] at h,
      fun h => by simp [desCat] at h, fun h => by simp [desCat] at h,
      fun h => by simp [desCat] at h⟩
    cases sv <;> simp [packChars, surveyChars, pad4]
  | cometP ty y hm num frag =>
    refine ⟨fun h => by simp [desCat] at h, fun h => by simp [desCat] at h, fun _ => ?_,
      fun h => by simp [desCat] at h, fun h => by simp [desCat] at h,
      fun h => by simp [desCat] at h⟩
    cases frag <;> simp [packChars, yearP, pad2, cc2]
  | cometA ty y hm ord cyc =>
    refine ⟨fun h => by simp [desCat] at h, fun h => by simp [desCat] at h, fun _ => ?_,
      fun h => by simp [desCat] at h, fun h => by simp [desCat] at h,
      fun h => by simp [desCat] at h⟩
    simp only [packChars]
    split
    · simp [yearP, pad2, cc2]
    · simp [b62of4]
  | cometN ty n frag =>
    refine ⟨fun h => by simp [desCat] at h, fun h => by simp [desCat] at h,
      fun h => by simp [desCat] at h, fun _ => ?_, fun h => by simp [desCat] at h,
      fun h => by simp [desCat] at h⟩
    cases frag with
    | none => left; simp [packChars, pad4]
    | some fr =>
      right
      cases fr <;> simp [packChars, pad4, spaces]
  | sat pl y n =>
    refine ⟨fun h => by simp [desCat] at h, fun h => by simp [desCat] at h,
      fun h => by simp [desCat] at h, fun h => by simp [desCat] at h, fun _ => ?_,
      fun h => by simp [desCat] at h⟩
    simp [packChars, yearP, pad2, cc2]
  | roman pl n =>
    refine ⟨fun h => by simp [desCat] at h, fun h => by simp [desCat] at h,
      fun h => by simp [desCat] at h, fun h => by simp [desCat] at h,
      fun h => by simp [desCat] at h, fun _ => ?_⟩
    simp [packChars, pad3]
  | other6 s =>
    exact ⟨fun h => by simp [desCat] at h, fun h => by simp [desCat] at h,
      fun h => by simp [desCat] at h, fun h => by simp [desCat] at h,
      fun h => by simp [desCat] at h, fun h => by simp [desCat] at h⟩
  | passthru s =>
    exact ⟨fun h => by simp [desCat] at h, fun h => by simp [desCat] at h,
      fun h => by simp [desCat] at h, fun h => by simp [desCat] at h,
      fun h => by simp [desCat] at h, fun h => by simp [desCat] at h⟩

/-! ## The claims -/

/-- C1: for every designation category except category 5, and for every valid
unpacked designation (any text and category hint the codec packs
successfully), unpacking the packed form returns exactly the original
designation text and its category: `unpack (pack d) = d`. -/
theorem c1_roundtrip_except_legacy (s p : String) (c : Int) (hc : c ≠ 5)
    (hp : pack s c = .ok p) : unpack p = (s, c) :=
  pack_ok_roundtrip s p c hc hp

theorem c1_roundtrip_except_legacy_witness :
    unpack "J95X00A" = ("1995 XA", 0) :=
  c1_roundtrip_except_legacy "1995 XA" "J95X00A" 0 (by decide) (by rfl)

/-- C2 counterexample: cycle count 591673, far above 62³ - 1 = 238327, is
representable by the extended scheme and packs successfully (fixture line
`_QCzzzz  0 2026 CL591673`), so the scheme's range does not stop at
62³ - 1. -/
theorem c2_counterexample_cycle_range :
    pack "2026 CL591673" 0 = .ok "_QCzzzz" ∧ 62 ^ 3 - 1 < 591673 := by
  exact ⟨by rfl, by norm_num⟩

/-- C2 amended: for cycle counts of at least 620 the packed form is the
four-character base-62 scheme behind a leading underscore sentinel; the
encoded value is `(cyc - 620) * 25 + ord` and must fit below 62⁴, which
admits cycle counts up to 591673 (`_QCzzzz` = `2026 CL591673`), and a
designation whose encoded value reaches 62⁴ signals `OutOfRange`. -/
theorem c2_amended_extended_scheme :
    (∀ (y : Nat) (hm : Char) (ord cyc : Nat), 620 ≤ cyc →
      packChars (.prov y hm ord cyc) =
        '_' :: base62_char (y - 2000) :: hm :: b62of4 ((cyc - 620) * 25 + ord)) ∧
    (∀ (s : String) (y : Nat) (hm : Char) (ord cyc : Nat),
      parse0 s.data = some (.prov y hm ord cyc) → 620 ≤ cyc →
      14776336 ≤ (cyc - 620) * 25 + ord → pack s 0 = .error .OutOfRange) ∧
    pack "2026 CL591673" 0 = .ok "_QCzzzz" ∧
    pack "2026 CA591674" 0 = .error .OutOfRange := by
  refine ⟨?_, ?_, by rfl, by rfl⟩
  · intro y hm ord cyc hcy
    simp only [packChars]
    rw [if_neg (by omega)]
  · intro s y hm ord cyc hp hcy hrange
    unfold pack
    rw [if_neg (by decide), if_neg (by decide)]
    rw [show parseCat 0 s.data = parse0 s.data from rfl, hp]
    simp only []
    rw [if_neg ?hnot]
    case hnot =>
      intro hok
      simp only [desOK, Bool.and_eq_true, decide_eq_true_eq] at hok
      rw [if_neg (by omega)] at hok
      simp at hok
      omega

theorem c2_amended_extended_scheme_witness :
    packChars (.prov 2026 'C' 0 620) =
      '_' :: base62_char 26 :: 'C' :: b62of4 0 :=
  c2_amended_extended_scheme.1 2026 'C' 0 620 (by decide)

/-- C3 counterexample: 164060 is above 99999 yet its packed form `G4060`
is not a tilde-prefixed 4-character base-62 field (fixture line
`G4060  1 (164060)`); the tilde scheme only starts at 620000. -/
theorem c3_counterexample_mid_range :
    pack "(164060)" 1 = .ok "G4060" ∧ 99999 < 164060 ∧
      "G4060".data.head? ≠ some '~' := by
  exact ⟨by rfl, by norm_num, by decide⟩

/-- C3 amended: numbered objects pack as five decimal digits up to 99999,
as a base-62 leading character for the ten-thousands followed by four
decimal digits for 100000-619999, and in the tilde-prefixed 4-character
base-62 field only from 620000 (`~0000`) through 15396335 (`~zzzz`); in
particular `pack("(620000)") = "~0000"` and `pack("(620036)") = "~000a"`. -/
theorem c3_amended_numbered_scheme :
    (∀ n : Nat, 1 ≤ n → n ≤ 15396335 →
      pack (String.mk ('(' :: (natToDec n ++ [')']))) 1 =
        .ok (String.mk (packChars (.numbered n))) ∧
      (n ≤ 99999 → packChars (.numbered n) =
        [digitChar (n / 10000), digitChar (n / 1000), digitChar (n / 100),
         digitChar (n / 10), digitChar n]) ∧
      (99999 < n → n ≤ 619999 → packChars (.numbered n) =
        [base62_char (n / 10000), digitChar (n / 1000), digitChar (n / 100),
         digitChar (n / 10), digitChar n]) ∧
      (620000 ≤ n → packChars (.numbered n) = '~' :: b62of4 (n - 620000))) ∧
    pack "(620000)" 1 = .ok "~0000" ∧ pack "(620036)" 1 = .ok "~000a" ∧
    pack "(15396335)" 1 = .ok "~zzzz" := by
  refine ⟨?_, by rfl, by rfl, by rfl⟩
  intro n h1 h2
  refine ⟨?_, ?_, ?_, ?_⟩
  · unfold pack
    rw [if_neg (by decide), if_neg (by decide)]
    have hstep : parseCat 1 (String.mk ('(' :: (natToDec n ++ [')']))).data =
        (match parseNat (natToDec n ++ [')']) with
         | some (m, [')']) => if 1 ≤ m then some (Des.numbered m) else none
         | _ => none) := rfl
    rw [hstep, parseNat_of_natToDec n [')']
      (by intro c hc; simp at hc; subst hc; decide)]
    simp only []
    rw [if_pos h1]
    simp only []
    rw [if_pos (by simp only [desOK, Bool.and_eq_true, decide_eq_true_eq]; omega)]
  · intro hsm
    simp only [packChars]
    rw [if_pos hsm]
  · intro hlo hhi
    simp only [packChars]
    rw [if_neg (by omega), if_pos hhi]
  · intro hbig
    simp only [packChars]
    rw [if_neg (by omega), if_neg (by omega)]

theorem c3_amended_numbered_scheme_witness :
    pack (String.mk ('(' :: (natToDec 620000 ++ [')']))) 1 =
      .ok (String.mk (packChars (.numbered 620000))) :=
  (c3_amended_numbered_scheme.1 620000 (by decide) (by decide)).1

/-- C4: the legacy category 5 collapses Roman and Arabic numeral input to
one packed code, and unpacking always yields the canonical Roman-numeral
form; in particular `pack "Neptune 210" = "N210S"` while
`unpack "N210S" = ("Neptune CCX", 5)`. -/
theorem c4_legacy_roman_collapse :
    pack "Neptune 210" 5 = .ok "N210S" ∧
    unpack "N210S" = ("Neptune CCX", 5) ∧
    ∀ (pl n : Nat), pl < 4 → 1 ≤ n → n ≤ 999 →
      pack (String.mk (planetNameL pl ++ ' ' :: natToDec n)) 5 =
        .ok (String.mk (packChars (.roman pl n))) ∧
      pack (String.mk (planetNameL pl ++ ' ' :: toRoman n)) 5 =
        .ok (String.mk (packChars (.roman pl n))) ∧
      unpack (String.mk (packChars (.roman pl n))) =
        (String.mk (planetNameL pl ++ ' ' :: toRoman n), 5) := by
  refine ⟨by rfl, by rfl, ?_⟩
  intro pl n hpl h1 h2
  exact ⟨pack5_both pl n hpl h1 h2 _ (parseNum5_dec n),
    pack5_both pl n hpl h1 h2 _ (parseNum5_rom n h1 h2),
    unpack5_roman pl n hpl h1 h2⟩

theorem c4_legacy_roman_collapse_witness :
    unpack (String.mk (packChars (.roman 2 24))) =
      (String.mk (planetNameL 2 ++ ' ' :: toRoman 24), 5) :=
  (c4_legacy_roman_collapse.2.2 2 24 (by decide) (by decide) (by decide)).2.2

/-- C5: pass-through identifiers are identity-mapped in both directions:
a string the classifier does not recognize (category -1) and a string of
the category-6 shape are returned unchanged by both pack and unpack. -/
theorem c5_passthru_identity (s : String) :
    (unpackChars s.data = none → pack s (-1) = .ok s ∧ unpack s = (s, -1)) ∧
    (valid6B s.data = true → pack s 6 = .ok s ∧ unpack s = (s, 6)) := by
  constructor
  · intro h
    constructor
    · unfold pack
      rw [if_pos rfl]
      simp [h]
    · unfold unpack
      rw [h]
  · intro h
    constructor
    · unfold pack
      rw [if_neg (by decide), if_pos rfl, if_pos h]
    · unfold unpack
      rw [unpack_valid6 s.data h]
      simp only [render, desCat, string_mk_data]

theorem c5_passthru_identity_witness :
    pack "WT1190F" (-1) = .ok "WT1190F" ∧ unpack "1992-044A" = ("1992-044A", 6) :=
  ⟨((c5_passthru_identity "WT1190F").1 (by rfl)).1,
   ((c5_passthru_identity "1992-044A").2 (by rfl)).2⟩

/-- C6: the base-62 digit mapping is total on the 62-character alphabet
`0`-`9`, `A`-`Z`, `a`-`z`, assigns the values 0-61 in exactly that order,
and is therefore strictly increasing along the alphabet. -/
theorem c6_base62_strictly_increasing :
    (∀ i < 62, digit_value (alphabet62.getD i '?') = some i) ∧
    (∀ i j, i < j → j < 62 → ∀ v w,
      digit_value (alphabet62.getD i '?') = some v →
      digit_value (alphabet62.getD j '?') = some w → v < w) := by
  have h1 : ∀ i < 62, digit_value (alphabet62.getD i '?') = some i := by decide
  refine ⟨h1, ?_⟩
  intro i j hij hj v w hv hw
  rw [h1 i (by omega)] at hv
  rw [h1 j hj] at hw
  simp at hv hw
  omega

theorem c6_base62_strictly_increasing_witness :
    digit_value (alphabet62.getD 36 '?') = some 36 :=
  c6_base62_strictly_increasing.1 36 (by decide)

/-- C7 counterexample: `G4060e` matches no known packed layout (the
classifier returns `none`) yet unpack does not signal an error: it
returns the pass-through result `("G4060e", -1)`, as the fixture's
category -1 entries require. -/
theorem c7_counterexample_no_unpack_error :
    unpackChars "G4060e".data = none ∧ unpack "G4060e" = ("G4060e", -1) :=
  ⟨by rfl, by rfl⟩

/-- C7 amended: pack signals `UnrecognizedDesignation` (an error and
nothing else) when its input matches no grammar of the hinted category;
unpack never signals an error: a packed string matching no known layout
is classified as category -1 and returned unchanged. -/
theorem c7_amended_error_behaviour :
    (∀ (s : String) (c : Int), c ≠ -1 → c ≠ 6 → parseCat c s.data = none →
      pack s c = .error .UnrecognizedDesignation) ∧
    (∀ s : String, unpackChars s.data = none → unpack s = (s, -1)) := by
  constructor
  · intro s c h1 h6 hp
    unfold pack
    rw [if_neg h1, if_neg h6, hp]
  · intro s h
    unfold unpack
    rw [h]

theorem c7_amended_error_behaviour_witness :
    pack "not a designation" 0 = .error .UnrecognizedDesignation :=
  c7_amended_error_behaviour.1 "not a designation" 0 (by decide) (by decide) (by rfl)

/-- C8 counterexample: a provisional designation packs to seven
characters, not five (`1995 XA` → `J95X00A`), and a numbered comet with a
fragment suffix packs to twelve characters, not at most eight
(`P/3141-E` → `3141P      e`). -/
theorem c8_counterexample_widths :
    (pack "1995 XA" 0 = .ok "J95X00A" ∧ "J95X00A".length = 7) ∧
    (pack "P/3141-E" 3 = .ok "3141P      e" ∧ "3141P      e".length = 12) :=
  ⟨⟨by rfl, by rfl⟩, ⟨by rfl, by rfl⟩⟩

/-- C8 amended: every successful pack yields a fixed-width field
determined by the category: 5 characters for numbered objects and the
legacy Roman-numeral forms, 7 for provisional and survey forms, 8 for
satellites and provisional-style comets, and 5 or 12 for numbered comets
(12 when a fragment suffix occupies the end of the twelve-column field). -/
theorem c8_amended_widths (s : String) (c : Int) (p : String)
    (hp : pack s c = .ok p) :
    (c = 1 → p.length = 5) ∧ (c = 0 → p.length = 7) ∧
    (c = 2 → p.length = 8) ∧ (c = 3 → (p.length = 5 ∨ p.length = 12)) ∧
    (c = 4 → p.length = 8) ∧ (c = 5 → p.length = 5) := by
  unfold pack at hp
  by_cases h1 : c = -1
  · subst h1
    exact ⟨fun h => absurd h (by decide), fun h => absurd h (by decide),
      fun h => absurd h (by decide), fun h => absurd h (by decide),
      fun h => absurd h (by decide), fun h => absurd h (by decide)⟩
  · rw [if_neg h1] at hp
    by_cases h6 : c = 6
    · subst h6
      exact ⟨fun h => absurd h (by decide), fun h => absurd h (by decide),
        fun h => absurd h (by decide), fun h => absurd h (by decide),
        fun h => absurd h (by decide), fun h => absurd h (by decide)⟩
    · rw [if_neg h6] at hp
      split at hp
      · exact absurd hp (by simp)
      · rename_i d hd
        split at hp
        · rename_i hok
          simp only [Except.ok.injEq] at hp
          subst hp
          have hlen : (String.mk (packChars d)).length = (packChars d).length := rfl
          have hcat : desCat d = c := by
            unfold parseCat at hd
            by_cases hc0 : c = 0
            · subst hc0
              rw [if_pos rfl] at hd
              exact (parse0_sound s.data d hd hok).2.2
            · rw [if_neg hc0] at hd
              by_cases hc1 : c = 1
              · subst hc1
                rw [if_pos rfl] at hd
                exact (parse1_sound s.data d hd hok).2.2
              · rw [if_neg hc1] at hd
                by_cases hc2 : c = 2
                · subst hc2
                  rw [if_pos rfl] at hd
                  exact (parse2_sound s.data d hd hok).2.2
                · rw [if_neg hc2] at hd
                  by_cases hc3 : c = 3
                  · subst hc3
                    rw [if_pos rfl] at hd
                    exact (parse3_sound s.data d hd hok).2.2
                  · rw [if_neg hc3] at hd
                    by_cases hc4 : c = 4
                    · subst hc4
                      rw [if_pos rfl] at hd
                      exact (parse4_sound s.data d hd hok).2.2
                    · rw [if_neg hc4] at hd
                      by_cases hc5 : c = 5
                      · subst hc5
                        rw [if_pos rfl] at hd
                        unfold parse5 at hd
                        have hone : ∀ i, parse5one i s.data = some d → desCat d = 5 := by
                          intro i hpi
                          unfold parse5one at hpi
                          split at hpi
                          · split at hpi
                            · split at hpi
                              · simp only [Option.some.injEq] at hpi
                                subst hpi
                                rfl
                              · simp at hpi
                            · simp at hpi
                          · simp at hpi
                        split at hd
                        · rename_i hp0
                          simp only [Option.some.injEq] at hd
                          subst hd
                          exact hone 0 hp0
                        · split at hd
                          · rename_i hp1
                            simp only [Option.some.injEq] at hd
                            subst hd
                            exact hone 1 hp1
                          · split at hd
                            · rename_i hp2
                              simp only [Option.some.injEq] at hd
                              subst hd
                              exact hone 2 hp2
                            · exact hone 3 hd
                      · rw [if_neg hc5] at hd
                        exact absurd hd (by simp)
          have := packChars_len d
          rw [hcat] at this
          rw [hlen]
          exact this
        · exact absurd hp (by simp)

theorem c8_amended_widths_witness : "00433".length = 5 :=
  (c8_amended_widths "(433)" 1 "00433" (by rfl)).1 rfl

/-- C9: survey designations carry no category code of their own: the
fixture packs and unpacks them under category code 0, the provisional
asteroid code, with `2040 P-L` ↔ `PLS2040` and `3141 T-3` ↔ `T3S3141`. -/
theorem c9_survey_under_cat0 :
    pack "2040 P-L" 0 = .ok "PLS2040" ∧ unpack "PLS2040" = ("2040 P-L", 0) ∧
    pack "3141 T-3" 0 = .ok "T3S3141" ∧ unpack "T3S3141" = ("3141 T-3", 0) ∧
    desCat (.survey .PL 2040) = 0 ∧ desCat (.survey .T3 3141) = 0 :=
  ⟨by rfl, by rfl, by rfl, by rfl, by rfl, by rfl⟩

/-- C10: appending a trailing character to the valid packed numbered form
`G4060` produces a string classified as category -1 pass-through, which
unpack returns unchanged instead of signalling an error or parsing the
valid prefix. -/
theorem c10_trailing_char_passthru :
    unpack "G4060e" = ("G4060e", -1) ∧ unpack "G4060" = ("(164060)", 1) :=
  ⟨by rfl, by rfl⟩

end MpcDes
